import Mathlib

/-!
# Verification of the text-extraction core

A shallow embedding of the extraction dispatch core of the `text-extraction`
repository (`src/services/extractors.ts` and `src/utils/fileUtils.ts`), with
theorems settling the frozen claims about it.

Modelling conventions:
* JavaScript strings are Lean `String`s; byte buffers are `List Nat`.
* Asynchronous calls that can reject are modelled as `Except String α`
  (the `String` is the thrown error's message).  External collaborators
  (pdf.js, mammoth, xlsx, Tesseract, JSZip, DOMParser) are fields of an
  environment record `Env`; their answers are arbitrary but fixed per call
  arguments, which models one concrete execution.
* `JSON.parse` / `JSON.stringify(·, null, 2)` are modelled by an executable
  parser/printer pair over a JSON value type.  Numbers are modelled as
  integers (IEEE floats are outside the embedding); `\uXXXX` escapes are
  not modelled.  The string-escape set covers what the printer emits.
* The shared mutable `result` object that the TypeScript strategies mutate
  in place is threaded through the strategy functions explicitly; a strategy
  that can let an exception escape returns `result × Option message`, where
  `some msg` means the exception escaped at that point with the mutations
  performed so far kept (JavaScript does not roll back mutations).
* `id` (random) and `processingTime` (wall clock) are environment noise and
  are not part of the embedded result record; no claim mentions them.
-/

/-- File categories, from `src/types` (the `FileCategory` union). -/
inductive FileCategory where
  | document
  | data
  | image
  | code
  | notebook
  | unknown
deriving DecidableEq, Repr

/-- Extraction statuses, from `src/types` (the `ExtractionStatus` union).
`Partial` models the source's `'partial'` status string. -/
inductive ExtractionStatus where
  | pending
  | processing
  | success
  | Partial
  | error
deriving DecidableEq, Repr

set_option maxHeartbeats 1000000 in
/-- The static extension→category table `EXTENSION_MAP` of
`src/utils/fileUtils.ts`, lines 3–88, as an association list (in source
order). -/
def EXTENSION_MAP : List (String × FileCategory) :=
  [("pdf", .document), ("doc", .document), ("docx", .document),
   ("txt", .document), ("md", .document), ("markdown", .document),
   ("html", .document), ("htm", .document), ("rtf", .document),
   ("odt", .document),
   ("csv", .data), ("xls", .data), ("xlsx", .data), ("json", .data),
   ("xml", .data), ("yaml", .data), ("yml", .data), ("tsv", .data),
   ("png", .image), ("jpg", .image), ("jpeg", .image), ("webp", .image),
   ("tiff", .image), ("tif", .image), ("gif", .image), ("bmp", .image),
   ("js", .code), ("jsx", .code), ("ts", .code), ("tsx", .code),
   ("py", .code), ("java", .code), ("c", .code), ("cpp", .code),
   ("h", .code), ("hpp", .code), ("cs", .code), ("go", .code),
   ("rs", .code), ("rb", .code), ("php", .code), ("swift", .code),
   ("kt", .code), ("scala", .code), ("r", .code), ("sql", .code),
   ("sh", .code), ("bash", .code), ("zsh", .code), ("ps1", .code),
   ("vue", .code), ("svelte", .code), ("lua", .code), ("perl", .code),
   ("pl", .code), ("asm", .code), ("vb", .code), ("dart", .code),
   ("elm", .code), ("ex", .code), ("exs", .code), ("erl", .code),
   ("clj", .code), ("hs", .code), ("ml", .code), ("fs", .code),
   ("scss", .code), ("sass", .code), ("less", .code), ("css", .code),
   ("graphql", .code), ("proto", .code), ("makefile", .code),
   ("dockerfile", .code),
   ("ipynb", .notebook)]

/-- JavaScript's `String.prototype.split('.')` on a character list:
`n` dots yield `n+1` parts. -/
def splitOnDot : List Char → List (List Char)
  | [] => [[]]
  | c :: rest =>
    if c = '.' then [] :: splitOnDot rest
    else (splitOnDot rest).modifyHead (fun p => c :: p)

/-- `getFileExtension` (fileUtils.ts, lines 90–93):
`fileName.toLowerCase().split('.')`, last part if there are at least two
parts, else the empty string. -/
def getFileExtension (fileName : String) : String :=
  let parts := splitOnDot (fileName.data.map Char.toLower)
  if parts.length > 1 then String.mk ((parts.getLast?).getD []) else ""

/-- `getFileCategory` (fileUtils.ts, lines 95–98):
`EXTENSION_MAP[ext]?.category || 'unknown'`. -/
def getFileCategory (fileName : String) : FileCategory :=
  ((EXTENSION_MAP.lookup (getFileExtension fileName)).getD .unknown)

/-- Modelled from the spec (§4.1): "Extension is derived from the last
`.`-delimited segment of the lowercased file name; a name with no `.`
yields an empty extension."  Used only to compare against
`getFileExtension`, which is translated from the source. -/
def specExtension (fileName : String) : String :=
  let low := fileName.data.map Char.toLower
  if low.contains '.' then String.mk (((splitOnDot low).getLast?).getD []) else ""

/-! ## JSON model (`JSON.parse` / `JSON.stringify(·, null, 2)`)

JSON values as a mutual inductive (so that all functions over them are
structurally recursive and kernel-reducible). -/

mutual
inductive Json where
  | null
  | bool (b : Bool)
  | num (n : Int)
  | str (s : String)
  | arr (elems : JsonList)
  | obj (members : JsonMembers)
inductive JsonList where
  | nil
  | cons (head : Json) (tail : JsonList)
inductive JsonMembers where
  | nil
  | cons (key : String) (value : Json) (tail : JsonMembers)
end

/-- Length of a JSON array. -/
def JsonList.length : JsonList → Nat
  | .nil => 0
  | .cons _ xs => 1 + xs.length

/-- Convert a Lean list of JSON values to a `JsonList` (notation helper for
concrete inputs). -/
def jarr : List Json → JsonList
  | [] => .nil
  | x :: xs => .cons x (jarr xs)

/-- Convert a Lean association list to `JsonMembers` (notation helper for
concrete inputs). -/
def jobj : List (String × Json) → JsonMembers
  | [] => .nil
  | (k, v) :: ms => .cons k v (jobj ms)

/-- String-escape for one character, as emitted by `JSON.stringify`
(restricted to the escapes the model covers; other characters pass
through unescaped). -/
def escChar (c : Char) : List Char :=
  if c = '"' then ['\\', '"']
  else if c = '\\' then ['\\', '\\']
  else if c = '\n' then ['\\', 'n']
  else if c = '\t' then ['\\', 't']
  else if c = '\r' then ['\\', 'r']
  else [c]

/-- String-escape a character list. -/
def escapeChars : List Char → List Char
  | [] => []
  | c :: cs => escChar c ++ escapeChars cs

/-- Decimal digits of `n`, most significant first, with explicit fuel so the
definition is structurally recursive (fuel `n + 1` always suffices). -/
def natCharsAux : Nat → Nat → List Char
  | 0, _ => []
  | f+1, n =>
    if n < 10 then [Nat.digitChar n]
    else natCharsAux f (n / 10) ++ [Nat.digitChar (n % 10)]

/-- Decimal representation of a natural number. -/
def natChars (m : Nat) : List Char := natCharsAux (m + 1) m

/-- Decimal representation of an integer (how `JSON.stringify` renders the
integers the model covers). -/
def intChars (n : Int) : List Char :=
  if n < 0 then '-' :: natChars n.natAbs else natChars n.natAbs

/-- Indentation of nesting depth `d` at 2 spaces per level. -/
def indentChars (d : Nat) : List Char := List.replicate (2 * d) ' '

/-- Rendering of an object key, including the `": "` separator. -/
def ppKey (k : String) : List Char := '"' :: (escapeChars k.data ++ ['"', ':', ' '])

mutual
/-- `JSON.stringify(v, null, 2)` at nesting depth `d`, as a character list. -/
def ppVal (d : Nat) : Json → List Char
  | .null => "null".data
  | .bool true => "true".data
  | .bool false => "false".data
  | .num n => intChars n
  | .str s => '"' :: (escapeChars s.data ++ ['"'])
  | .arr .nil => ['[', ']']
  | .arr (.cons x xs) =>
      ['[', '\n'] ++ ppItems d (.cons x xs) ++ '\n' :: (indentChars d ++ [']'])
  | .obj .nil => ['{', '}']
  | .obj (.cons k v ms) =>
      ['{', '\n'] ++ ppMembers d (.cons k v ms) ++ '\n' :: (indentChars d ++ ['}'])

/-- The comma-and-newline separated items of a non-empty array body. -/
def ppItems (d : Nat) : JsonList → List Char
  | .nil => []
  | .cons x xs =>
      indentChars (d+1) ++ ppVal (d+1) x ++
        (match xs with
         | .nil => []
         | .cons _ _ => [',', '\n']) ++ ppItems d xs

/-- The comma-and-newline separated members of a non-empty object body. -/
def ppMembers (d : Nat) : JsonMembers → List Char
  | .nil => []
  | .cons k v ms =>
      indentChars (d+1) ++ ppKey k ++ ppVal (d+1) v ++
        (match ms with
         | .nil => []
         | .cons _ _ _ => [',', '\n']) ++ ppMembers d ms
end

/-- `JSON.stringify(v, null, 2)` as a `String`. -/
def ppString (v : Json) : String := String.mk (ppVal 0 v)

/-- JSON whitespace. -/
def isWsChar (c : Char) : Bool := c = ' ' || c = '\n' || c = '\t' || c = '\r'

/-- Drop leading JSON whitespace. -/
def skipWs : List Char → List Char
  | [] => []
  | c :: cs => if isWsChar c then skipWs cs else c :: cs

/-- Decode one string-escape character. -/
def unescChar (e : Char) : Option Char :=
  if e = '"' then some '"'
  else if e = '\\' then some '\\'
  else if e = '/' then some '/'
  else if e = 'n' then some '\n'
  else if e = 't' then some '\t'
  else if e = 'r' then some '\r'
  else if e = 'b' then some (Char.ofNat 8)
  else if e = 'f' then some (Char.ofNat 12)
  else none

/-- Parse a JSON string body (after the opening quote), returning the decoded
characters and the input after the closing quote. -/
def parseStrBody : List Char → Option (List Char × List Char)
  | [] => none
  | c :: cs =>
    if c = '"' then some ([], cs)
    else if c = '\\' then
      match cs with
      | [] => none
      | e :: cs2 =>
        match unescChar e with
        | none => none
        | some u =>
          match parseStrBody cs2 with
          | none => none
          | some p => some (u :: p.1, p.2)
    else
      match parseStrBody cs with
      | none => none
      | some p => some (c :: p.1, p.2)

/-- Split the longest run of leading decimal digits from the input. -/
def takeDigits : List Char → (List Char × List Char)
  | [] => ([], [])
  | c :: cs =>
    if c.isDigit then
      let p := takeDigits cs
      (c :: p.1, p.2)
    else ([], c :: cs)

/-- Numeric value of a digit character. -/
def charDigit (c : Char) : Nat := c.toNat - 48

/-- Numeric value of a digit string (most significant digit first). -/
def digitsVal (ds : List Char) : Nat := Nat.ofDigits 10 ((ds.map charDigit).reverse)

mutual
/-- Recursive-descent JSON value parser with fuel (the model of
`JSON.parse`); returns the value and the unconsumed input. -/
def parseVal : Nat → List Char → Option (Json × List Char)
  | 0, _ => none
  | f+1, s =>
    match skipWs s with
    | [] => none
    | c :: r =>
      if c.isDigit then
        let p := takeDigits (c :: r)
        some (.num (Int.ofNat (digitsVal p.1)), p.2)
      else if c = '-' then
        match takeDigits r with
        | ([], _) => none
        | (ds, r2) => some (.num (-(Int.ofNat (digitsVal ds))), r2)
      else if c = 'n' then
        match r with
        | 'u' :: 'l' :: 'l' :: r2 => some (.null, r2)
        | _ => none
      else if c = 't' then
        match r with
        | 'r' :: 'u' :: 'e' :: r2 => some (.bool true, r2)
        | _ => none
      else if c = 'f' then
        match r with
        | 'a' :: 'l' :: 's' :: 'e' :: r2 => some (.bool false, r2)
        | _ => none
      else if c = '"' then
        match parseStrBody r with
        | none => none
        | some (cs, r2) => some (.str (String.mk cs), r2)
      else if c = '[' then
        let t := skipWs r
        if t.head? = some ']' then some (.arr .nil, t.tail)
        else
          match parseItems f t with
          | none => none
          | some (xs, r2) => some (.arr xs, r2)
      else if c = '{' then
        let t := skipWs r
        if t.head? = some '}' then some (.obj .nil, t.tail)
        else
          match parseMembers f t with
          | none => none
          | some (ms, r2) => some (.obj ms, r2)
      else none

/-- Parse the comma-separated items of a non-empty array, up to and
including the closing `]`. -/
def parseItems : Nat → List Char → Option (JsonList × List Char)
  | 0, _ => none
  | f+1, s =>
    match parseVal f s with
    | none => none
    | some (v, r) =>
      match skipWs r with
      | ',' :: r2 =>
        match parseItems f r2 with
        | none => none
        | some (vs, r3) => some (.cons v vs, r3)
      | ']' :: r2 => some (.cons v .nil, r2)
      | _ => none

/-- Parse the comma-separated members of a non-empty object, up to and
including the closing `}`. -/
def parseMembers : Nat → List Char → Option (JsonMembers × List Char)
  | 0, _ => none
  | f+1, s =>
    match skipWs s with
    | '"' :: r =>
      match parseStrBody r with
      | none => none
      | some (k, r2) =>
        match skipWs r2 with
        | ':' :: r3 =>
          match parseVal f r3 with
          | none => none
          | some (v, r4) =>
            match skipWs r4 with
            | ',' :: r5 =>
              match parseMembers f r5 with
              | none => none
              | some (ms, r6) => some (.cons (String.mk k) v ms, r6)
            | '}' :: r5 => some (.cons (String.mk k) v .nil, r5)
            | _ => none
        | _ => none
    | _ => none
end

/-- The model of `JSON.parse`: parse one value and require that only
whitespace remains.  `none` models a thrown `SyntaxError`. -/
def jsonParse (s : String) : Option Json :=
  match parseVal (s.length + 1) s.data with
  | some (v, rest) => if skipWs rest = [] then some v else none
  | none => none

mutual
/-- Fuel needed by `parseVal` to parse the printed form of a value. -/
def cost : Json → Nat
  | .null => 1
  | .bool _ => 1
  | .num _ => 1
  | .str _ => 1
  | .arr xs => 1 + costItems xs
  | .obj ms => 1 + costMems ms
/-- Fuel needed by `parseItems` for the printed items. -/
def costItems : JsonList → Nat
  | .nil => 1
  | .cons x xs => 1 + max (cost x) (costItems xs)
/-- Fuel needed by `parseMembers` for the printed members. -/
def costMems : JsonMembers → Nat
  | .nil => 1
  | .cons _ v ms => 1 + max (cost v) (costMems ms)
end

/-- The input allowed to follow a printed value: empty, or starting with a
non-digit (so that number parsing stops exactly at the value boundary). -/
def headOk : List Char → Prop
  | [] => True
  | c :: _ => c.isDigit = false

/-- The input that follows a printed array item inside `ppVal`'s rendering
of a non-empty array: either the closing newline/indent/`]`, or the
`,`-newline separator, the next item's indentation and printed form, and
recursively the rest. -/
def itemsSuffix (d : Nat) (xs : JsonList) (rest : List Char) : List Char :=
  match xs with
  | .nil => '\n' :: (indentChars d ++ (']' :: rest))
  | .cons y ys =>
    ',' :: '\n' :: (indentChars (d+1) ++ (ppVal (d+1) y ++ itemsSuffix d ys rest))

/-- The input that follows a printed object member, analogous to
`itemsSuffix`. -/
def membersSuffix (d : Nat) (ms : JsonMembers) (rest : List Char) : List Char :=
  match ms with
  | .nil => '\n' :: (indentChars d ++ ('}' :: rest))
  | .cons k v ms2 =>
    ',' :: '\n' :: (indentChars (d+1) ++ (ppKey k ++ (ppVal (d+1) v ++ membersSuffix d ms2 rest)))

/-! ## JavaScript value coercions used by the notebook strategy -/

mutual
/-- JavaScript `String(x)` coercion on JSON values (arrays join with `,`,
plain objects print as `[object Object]`). -/
def jsToChars : Json → List Char
  | .null => "null".data
  | .bool true => "true".data
  | .bool false => "false".data
  | .num n => intChars n
  | .str s => s.data
  | .arr xs => jsListChars xs
  | .obj _ => "[object Object]".data

/-- `Array.prototype.join(',')`: elements are string-coerced, `null` becomes
the empty string. -/
def jsListChars : JsonList → List Char
  | .nil => []
  | .cons x xs =>
      (match x with
       | .null => []
       | v => jsToChars v) ++
        (match xs with
         | .nil => []
         | .cons _ _ => [',']) ++ jsListChars xs
end

/-- `String(x)` as a Lean `String`. -/
def jsToString (j : Json) : String := String.mk (jsToChars j)

/-- JavaScript truthiness of a JSON value. -/
def jsTruthy : Json → Bool
  | .null => false
  | .bool b => b
  | .num n => if n = 0 then false else true
  | .str s => if s.data = [] then false else true
  | .arr _ => true
  | .obj _ => true

/-- Truthiness of a possibly-`undefined` value (`none` models `undefined`). -/
def jsTruthyOpt : Option Json → Bool
  | none => false
  | some v => jsTruthy v

/-- Object member lookup with JavaScript semantics: a later duplicate key
wins (as it does after `JSON.parse`). -/
def jmLookup : JsonMembers → String → Option Json
  | .nil, _ => none
  | .cons k v ms, key =>
    match jmLookup ms key with
    | some r => some r
    | none => if k = key then some v else none

/-- Property access `j.k` when `j` is known non-null / non-undefined
(`none` models `undefined`). -/
def jsGetOpt (j : Json) (k : String) : Option Json :=
  match j with
  | .obj ms => jmLookup ms k
  | _ => none

/-- Property access `j.k` that models the `TypeError` thrown on `null`. -/
def jsField (j : Json) (k : String) : Except String (Option Json) :=
  match j with
  | .null => .error ("Cannot read properties of null (reading " ++ k ++ ")")
  | .obj ms => .ok (jmLookup ms k)
  | _ => .ok none

/-- Optional chaining `o?.k` on a possibly-`undefined` value. -/
def optChain (o : Option Json) (k : String) : Option Json :=
  match o with
  | some (.obj ms) => jmLookup ms k
  | _ => none

/-- JavaScript `a || b` where `a` may be `undefined`. -/
def jsOrOpt (a : Option Json) (b : Json) : Json :=
  match a with
  | some v => if jsTruthy v then v else b
  | none => b

/-! ## String helpers shared by the strategies -/

/-- `String.prototype.trim()`. -/
def jsTrim (s : String) : String :=
  String.mk (((s.data.dropWhile Char.isWhitespace).reverse.dropWhile Char.isWhitespace).reverse)

/-- Decimal rendering of a `Nat` (JavaScript template-literal coercion). -/
def natToString (n : Nat) : String := String.mk (natChars n)

/-- Decimal rendering of an `Int` (JavaScript template-literal coercion). -/
def intToString (n : Int) : String := String.mk (intChars n)

/-- `String.prototype.toLowerCase()` (ASCII, as used on tag names). -/
def strToLower (s : String) : String := String.mk (s.data.map Char.toLower)

/-- `String.prototype.toUpperCase()` (ASCII, as used on extensions). -/
def strToUpper (s : String) : String := String.mk (s.data.map Char.toUpper)

/-- `Array.prototype.join(sep)` for a list of strings. -/
def joinSep (sep : String) : List String → String
  | [] => ""
  | [s] => s
  | s :: rest => s ++ sep ++ joinSep sep rest

/-- `String.prototype.split('\n')` (for the code strategy's line count). -/
def splitOnNl : List Char → List (List Char)
  | [] => [[]]
  | c :: rest =>
    if c = '\n' then [] :: splitOnNl rest
    else (splitOnNl rest).modifyHead (fun p => c :: p)

/-- Replacement for a run of `p` pending newlines under `/\n{3,}/g → '\n\n'`. -/
def nlRun (p : Nat) : List Char := if p ≥ 3 then ['\n', '\n'] else List.replicate p '\n'

/-- Worker for `replace(/\n{3,}/g, '\n\n')`; `p` counts pending newlines. -/
def collapseNlGo : List Char → Nat → List Char
  | [], p => nlRun p
  | c :: rest, p =>
    if c = '\n' then collapseNlGo rest (p + 1)
    else nlRun p ++ c :: collapseNlGo rest 0

/-- `replace(/\n{3,}/g, '\n\n')`. -/
def collapseNl (l : List Char) : List Char := collapseNlGo l 0

/-- Replacement for a run of `p` pending spaces under `/ {3,}/g → ' '`. -/
def spRun (p : Nat) : List Char := if p ≥ 3 then [' '] else List.replicate p ' '

/-- Worker for `replace(/ {3,}/g, ' ')`; `p` counts pending spaces. -/
def collapseSpGo : List Char → Nat → List Char
  | [], p => spRun p
  | c :: rest, p =>
    if c = ' ' then collapseSpGo rest (p + 1)
    else spRun p ++ c :: collapseSpGo rest 0

/-- `replace(/ {3,}/g, ' ')`. -/
def collapseSp (l : List Char) : List Char := collapseSpGo l 0

/-- Lowercase ASCII letter (the `[a-z]` class of the RTF control-word
pattern). -/
def isLowerAlpha (c : Char) : Bool := 'a' ≤ c && c ≤ 'z'

/-- Scanner state for `replace(/\\[a-z]+\d* ?/g, '')`: outside any match,
just after a backslash, inside the letter part, or inside the digit part. -/
inductive RtfScanState where
  | norm
  | sawBS
  | inWord
  | inDigits

/-- `replace(/\\[a-z]+\d* ?/g, '')` as a left-to-right scan. -/
def stripCtrlWords : List Char → RtfScanState → List Char
  | [], .sawBS => ['\\']
  | [], _ => []
  | c :: rest, .norm =>
    if c = '\\' then stripCtrlWords rest .sawBS else c :: stripCtrlWords rest .norm
  | c :: rest, .sawBS =>
    if isLowerAlpha c then stripCtrlWords rest .inWord
    else '\\' :: (if c = '\\' then stripCtrlWords rest .sawBS else c :: stripCtrlWords rest .norm)
  | c :: rest, .inWord =>
    if isLowerAlpha c then stripCtrlWords rest .inWord
    else if c.isDigit then stripCtrlWords rest .inDigits
    else if c = ' ' then stripCtrlWords rest .norm
    else if c = '\\' then stripCtrlWords rest .sawBS
    else c :: stripCtrlWords rest .norm
  | c :: rest, .inDigits =>
    if c.isDigit then stripCtrlWords rest .inDigits
    else if c = ' ' then stripCtrlWords rest .norm
    else if c = '\\' then stripCtrlWords rest .sawBS
    else c :: stripCtrlWords rest .norm

/-- `replace(/\{[^}]*\}/g, '')` as a scan; `acc = some buf` means we are
inside a candidate group with `buf` holding the scanned characters in
reverse (emitted verbatim if the input ends with no closing brace). -/
def stripBraceGroups : List Char → Option (List Char) → List Char
  | [], none => []
  | [], some acc => '{' :: acc.reverse
  | c :: rest, none =>
    if c = '{' then stripBraceGroups rest (some [])
    else c :: stripBraceGroups rest none
  | c :: rest, some acc =>
    if c = '}' then stripBraceGroups rest none
    else stripBraceGroups rest (some (c :: acc))

/-- `replace(/\\par/g, '\n')`. -/
def replacePar : List Char → List Char
  | '\\' :: 'p' :: 'a' :: 'r' :: rest => '\n' :: replacePar rest
  | c :: rest => c :: replacePar rest
  | [] => []

/-- `replace(/\\\n/g, '\n')`. -/
def replaceBsNl : List Char → List Char
  | '\\' :: '\n' :: rest => '\n' :: replaceBsNl rest
  | c :: rest => c :: replaceBsNl rest
  | [] => []

/-- `replace(/\r\n/g, '\n')`. -/
def replaceCrNl : List Char → List Char
  | '\r' :: '\n' :: rest => '\n' :: replaceCrNl rest
  | c :: rest => c :: replaceCrNl rest
  | [] => []

/-! ## The data model: result record, file, and environment -/

/-- A value stored in the open `metadata` map (`undef` models a JavaScript
`undefined` stored by an assignment such as `cellCount = cells.length` on a
length-less value). -/
inductive MetaVal where
  | j (v : Json)
  | undef

/-- One entry of the `pages` sequence (`{pageNumber, text}`). -/
structure PageInfo where
  pageNumber : Nat
  text : String
deriving DecidableEq, Repr

/-- The `ExtractionResult` record of `src/types`, restricted to the fields
the extraction core populates deterministically (`id` and `processingTime`
are environment noise and are not modelled). -/
structure ExtractionResult where
  fileName : String
  fileType : String
  category : FileCategory
  status : ExtractionStatus
  text : String
  pages : Option (List PageInfo)
  confidence : Option Int
  warnings : List String
  errors : List String
  metadata : List (String × MetaVal)

/-- Append a warning (`result.warnings.push(w)`). -/
def pushWarning (r : ExtractionResult) (w : String) : ExtractionResult :=
  {r with warnings := r.warnings ++ [w]}

/-- Append an error (`result.errors.push(e)`). -/
def pushError (r : ExtractionResult) (e : String) : ExtractionResult :=
  {r with errors := r.errors ++ [e]}

/-- Record a metadata assignment (`result.metadata.k = v`); reads use
last-write-wins lookup. -/
def putMeta (r : ExtractionResult) (k : String) (v : MetaVal) : ExtractionResult :=
  {r with metadata := r.metadata ++ [(k, v)]}

/-- Last-write-wins lookup in the metadata assignment log. -/
def metaLookup : List (String × MetaVal) → String → Option MetaVal
  | [], _ => none
  | (k, v) :: rest, key =>
    match metaLookup rest key with
    | some r => some r
    | none => if k = key then some v else none

/-- Read a metadata key. -/
def getMeta (r : ExtractionResult) (k : String) : Option MetaVal :=
  metaLookup r.metadata k

/-- The `FileLike` input: name, size, last-modified timestamp (pre-rendered
ISO string; `Date` formatting is outside the model), and the outcomes of
`file.text()` and `file.arrayBuffer()` for this execution. -/
structure FileModel where
  name : String
  size : Nat
  lastModifiedISO : String
  textContent : Except String String
  bytes : Except String (List Nat)

/-- The paginated-document collaborator (pdf.js document): page count and,
per 1-based page number, either the text items (`str` members paired with
the `transform[5]` vertical coordinate; `none` models an item without a
`str` field) or a thrown page error. -/
structure PdfDoc where
  numPages : Nat
  getPage : Nat → Except String (List (Option (String × Int)))

/-- One diagnostic message of the DOCX converter. -/
structure MammothMessage where
  type : String
  message : String

/-- The DOCX converter's answer (`{value, messages}`). -/
structure MammothResult where
  value : String
  messages : List MammothMessage

/-- One recognized word of the OCR engine. -/
structure OcrWord where
  text : String
  confidence : Int

/-- The OCR engine's answer (`{text, confidence, words}`; confidences are
modelled as integers, so the source's `Math.round` is the identity). -/
structure OcrData where
  text : String
  confidence : Int
  words : List OcrWord

/-- One archive entry as enumerated by the ZIP reader: its path, whether it
is a directory, and the outcome of reading it as text. -/
structure ZipEntry where
  path : String
  dir : Bool
  content : Except String String

mutual
/-- A parsed DOM node (text node, element, or any other node type, which
contributes nothing to extraction). -/
inductive DomNode where
  | textNode (content : String)
  | element (tag : String) (children : DomNodeList)
  | otherNode
/-- A DOM child list. -/
inductive DomNodeList where
  | nil
  | cons (head : DomNode) (tail : DomNodeList)
end

/-- The environment of external collaborators; each field models one
library call's outcome as a function of its arguments (one fixed
execution). -/
structure Env where
  pdfLoad : List Nat → Except String PdfDoc
  mammoth : List Nat → Except String MammothResult
  xlsxRead : List Nat → Except String (List (String × String))
  ocr : FileModel → Except String OcrData
  zipLoad : List Nat → Except String (List ZipEntry)
  domParse : String → DomNode

/-! ## Strategies (extractors.ts)

A strategy that can let an exception escape to the orchestrator returns
`ExtractionResult × Option String`; `some msg` is the escaped exception. -/

/-- One step of the PDF text-item loop (extractors.ts, lines 132–145): the
accumulator is `(pageText, lastY)`. -/
def pdfItemStep (acc : String × Option Int) (item : Option (String × Int)) :
    String × Option Int :=
  match item with
  | none => acc
  | some (s, y) =>
    let t := acc.1
    let t2 :=
      match acc.2 with
      | some ly =>
        if (y - ly).natAbs > 5 then t ++ "\n"
        else if t.length > 0 ∧ t.data.getLast? ≠ some ' ' then t ++ " "
        else t
      | none => t
    (t2 ++ s, some y)

/-- The trimmed text of one PDF page's items. -/
def pdfPageText (items : List (Option (String × Int))) : String :=
  jsTrim ((items.foldl pdfItemStep ("", none)).1)

/-- The `pages` entry produced for page `i` (extractors.ts, lines 147–158):
extracted text on success, the unreadable-page sentinel if the page throws. -/
def pdfPageOf (pdf : PdfDoc) (i : Nat) : PageInfo :=
  match pdf.getPage i with
  | .ok items => ⟨i, pdfPageText items⟩
  | .error _ => ⟨i, "[UNREADABLE: Page extraction failed]"⟩

/-- The `textParts` entry produced for page `i` (its `--- Page i ---`
marker plus the page text or sentinel). -/
def pdfPartOf (pdf : PdfDoc) (i : Nat) : String :=
  "--- Page " ++ natToString i ++ " ---\n" ++ (pdfPageOf pdf i).text

/-- The warnings contributed by page `i` (one if the page throws, else
none). -/
def pdfWarnOf (pdf : PdfDoc) (i : Nat) : List String :=
  match pdf.getPage i with
  | .ok _ => []
  | .error _ => ["Page " ++ natToString i ++ ": Extraction error - possible corruption"]

/-- `extractPDF` (extractors.ts, lines 102–172), also reporting whether
`pdf.destroy()` was called (the `Bool`).  The 30-second timeout race is part
of `env.pdfLoad`: a timeout is a load answering
`.error "PDF loading timed out"`. -/
def extractPDFAux (env : Env) (f : FileModel) (r : ExtractionResult) :
    ExtractionResult × Bool :=
  match f.bytes with
  | .error msg =>
    ({r with errors := r.errors ++ ["PDF extraction failed: " ++ msg],
             text := "[UNREADABLE: PDF extraction failed]"}, false)
  | .ok bs =>
    match env.pdfLoad bs with
    | .error msg =>
      ({r with errors := r.errors ++ ["PDF extraction failed: " ++ msg],
               text := "[UNREADABLE: PDF extraction failed]"}, false)
    | .ok pdf =>
      let r1 := putMeta r "pageCount" (.j (.num pdf.numPages))
      let idxs := List.range' 1 pdf.numPages
      ({r1 with pages := some (idxs.map (pdfPageOf pdf)),
                warnings := r1.warnings ++ idxs.flatMap (pdfWarnOf pdf),
                text := joinSep "\n\n" (idxs.map (pdfPartOf pdf))}, true)

/-- `extractPDF` as mutation of the result record. -/
def extractPDF (env : Env) (f : FileModel) (r : ExtractionResult) : ExtractionResult :=
  (extractPDFAux env f r).1

/-- `extractDOCX` (extractors.ts, lines 174–194). -/
def extractDOCX (env : Env) (f : FileModel) (r : ExtractionResult) : ExtractionResult :=
  let failure :=
    {r with errors := r.errors ++
              ["Failed to extract DOCX. File may be corrupted or password-protected."],
            text := "[UNREADABLE: DOCX extraction failed]"}
  match f.bytes with
  | .error _ => failure
  | .ok bs =>
    match env.mammoth bs with
    | .error _ => failure
    | .ok docResult =>
      docResult.messages.foldl
        (fun acc msg =>
          if msg.type = "warning" then pushWarning acc msg.message
          else if msg.type = "error" then pushError acc msg.message
          else acc)
        {r with text := docResult.value}

/-- The block-level tags of `extractHTML` (extractors.ts, line 221). -/
def blockTags : List String :=
  ["div", "p", "h1", "h2", "h3", "h4", "h5", "h6", "li", "tr", "br", "hr"]

/-- Whether a node is a `<script>` or `<style>` element (removed before
extraction). -/
def isScriptStyle : DomNode → Bool
  | .element tag _ => strToLower tag = "script" || strToLower tag = "style"
  | _ => false

mutual
/-- Remove all `script`/`style` elements from a subtree. -/
def pruneNode : DomNode → DomNode
  | .textNode c => .textNode c
  | .element tag children => .element tag (pruneList children)
  | .otherNode => .otherNode
/-- Remove all `script`/`style` elements from a child list. -/
def pruneList : DomNodeList → DomNodeList
  | .nil => .nil
  | .cons n rest =>
    if isScriptStyle n then pruneList rest
    else .cons (pruneNode n) (pruneList rest)
end

mutual
/-- `extractTextFromNode` (extractors.ts, lines 208–236): text nodes
contribute trimmed content; elements contribute their children's text plus
a trailing newline for block elements.  (The source's leading-newline test
compares against a local accumulator that is still empty at that point, so
it never fires.) -/
def domText : DomNode → String
  | .textNode content => jsTrim content
  | .element tag children =>
    domListText children ++ (if blockTags.contains (strToLower tag) then "\n" else "")
  | .otherNode => ""
/-- Concatenated text of a child list. -/
def domListText : DomNodeList → String
  | .nil => ""
  | .cons n rest => domText n ++ domListText rest
end

/-- `extractHTML` (extractors.ts, lines 196–244); can only throw at the
initial `file.text()` read. -/
def extractHTML (env : Env) (f : FileModel) (r : ExtractionResult) :
    ExtractionResult × Option String :=
  match f.textContent with
  | .error msg => (r, some msg)
  | .ok html =>
    let body := env.domParse html
    let text := jsTrim (String.mk (collapseNl (domText (pruneNode body)).data))
    (putMeta {r with text := text} "rawHtmlLength" (.j (.num html.length)), none)

/-- `extractRTF` (extractors.ts, lines 246–267); the regex pipeline in
source order. -/
def extractRTF (f : FileModel) (r : ExtractionResult) :
    ExtractionResult × Option String :=
  match f.textContent with
  | .error msg => (r, some msg)
  | .ok content =>
    let t1 := stripCtrlWords content.data .norm
    let t2 := stripBraceGroups t1 none
    let t3 := t2.filter (fun c => !(c = '{' || c = '}'))
    let t4 := replacePar t3
    let t5 := replaceBsNl t4
    let t6 := replaceCrNl t5
    let text := jsTrim (String.mk (collapseNl t6))
    (pushWarning {r with text := text}
      "RTF extraction is best-effort. Some formatting may be lost.", none)

/-- `extractDocument` (extractors.ts, lines 70–100): sub-dispatch on the
extension. -/
def extractDocument (env : Env) (f : FileModel) (r : ExtractionResult) :
    ExtractionResult × Option String :=
  match getFileExtension f.name with
  | "pdf" => (extractPDF env f r, none)
  | "docx" => (extractDOCX env f r, none)
  | "doc" =>
    (extractDOCX env f
      (pushWarning r "DOC format has limited support. For best results, convert to DOCX."),
     none)
  | "txt" =>
    (match f.textContent with
     | .ok c => ({r with text := c}, none)
     | .error msg => (r, some msg))
  | "md" =>
    (match f.textContent with
     | .ok c => ({r with text := c}, none)
     | .error msg => (r, some msg))
  | "markdown" =>
    (match f.textContent with
     | .ok c => ({r with text := c}, none)
     | .error msg => (r, some msg))
  | "html" => extractHTML env f r
  | "htm" => extractHTML env f r
  | "rtf" => extractRTF f r
  | ext =>
    match f.textContent with
    | .ok c =>
      (pushWarning {r with text := c} ("Best-effort extraction for ." ++ ext ++ " format"),
       none)
    | .error msg => (r, some msg)

/-- `extractExcel` (extractors.ts, lines 296–316). -/
def extractExcel (env : Env) (f : FileModel) (r : ExtractionResult) : ExtractionResult :=
  let failure :=
    {r with errors := r.errors ++
              ["Failed to extract Excel file. File may be corrupted or password-protected."],
            text := "[UNREADABLE: Excel extraction failed]"}
  match f.bytes with
  | .error _ => failure
  | .ok bs =>
    match env.xlsxRead bs with
    | .error _ => failure
    | .ok sheets =>
      let r1 := putMeta r "sheetCount" (.j (.num sheets.length))
      let parts := sheets.enum.map
        (fun p => "=== Sheet " ++ natToString (p.1 + 1) ++ ": " ++ p.2.1 ++ " ===\n" ++ p.2.2)
      {r1 with text := joinSep "\n\n" parts}

/-- `extractJSON` (extractors.ts, lines 318–332); the `file.text()` read is
outside the `try`, so a read failure escapes. -/
def extractJSON (f : FileModel) (r : ExtractionResult) :
    ExtractionResult × Option String :=
  match f.textContent with
  | .error msg => (r, some msg)
  | .ok content =>
    match jsonParse content with
    | some parsed =>
      (putMeta {r with text := ppString parsed} "isValidJson" (.j (.num 1)), none)
    | none =>
      (putMeta (pushWarning {r with text := content} "File does not contain valid JSON")
        "isValidJson" (.j (.num 0)), none)

/-- `extractData` (extractors.ts, lines 269–294): sub-dispatch on the
extension; plain formats are a verbatim `file.text()` pass-through. -/
def extractData (env : Env) (f : FileModel) (r : ExtractionResult) :
    ExtractionResult × Option String :=
  match getFileExtension f.name with
  | "xlsx" => (extractExcel env f r, none)
  | "xls" => (extractExcel env f r, none)
  | "json" => extractJSON f r
  | _ =>
    match f.textContent with
    | .ok c => ({r with text := c}, none)
    | .error msg => (r, some msg)

/-- `extractImage` (extractors.ts, lines 334–386): OCR orchestration with
confidence tiers, low-confidence word warnings, the empty-text sentinel and
the garbage heuristic (`ratio < 0.3` is the exact comparison
`10·alnum < 3·len`). -/
def extractImage (env : Env) (f : FileModel) (r : ExtractionResult) : ExtractionResult :=
  match env.ocr f with
  | .error msg =>
    {r with errors := r.errors ++ ["OCR failed: " ++ msg],
            text := "[UNREADABLE: OCR extraction failed]"}
  | .ok o =>
    let conf := o.confidence
    let r1 := putMeta {r with text := o.text, confidence := some conf}
      "ocrConfidence" (.j (.num conf))
    let r2 :=
      if conf < 30 then
        pushWarning r1 ("Very low OCR confidence: " ++ intToString conf ++
          "% - Text extraction is unreliable. The image may contain logos, icons, handwriting, or non-text elements.")
      else if conf < 50 then
        pushWarning r1 ("Low OCR confidence: " ++ intToString conf ++
          "% - Text may be inaccurate. Consider using a clearer image.")
      else if conf < 75 then
        pushWarning r1 ("Moderate OCR confidence: " ++ intToString conf ++
          "% - Some text may be inaccurate.")
      else r1
    let lowConf := o.words.filter (fun w => w.confidence < 60)
    let r3 :=
      if lowConf.length > 0 ∧ lowConf.length ≤ 10 then
        pushWarning r2 (natToString lowConf.length ++ " word(s) with low confidence: " ++
          joinSep ", " ((lowConf.take 3).map (fun w => "\"" ++ w.text ++ "\"")) ++
          (if lowConf.length > 3 then "..." else ""))
      else if lowConf.length > 10 then
        pushWarning r2 (natToString lowConf.length ++
          " words with low confidence detected - consider using a higher quality image.")
      else r2
    let r4 :=
      if jsTrim r3.text = "" then
        {(pushWarning r3 "No text detected in image. This could mean: (1) The image contains only graphics/logos, (2) Text is too small or blurry, (3) Text is in an unsupported language, or (4) The image is empty.") with
          text := "[NO TEXT DETECTED: Image may contain graphics, logos, or non-text content only]"}
      else r3
    let alnum := r4.text.data.countP (fun c => c.isAlpha || c.isDigit)
    if r4.text.length > 5 ∧ alnum * 10 < (max r4.text.length 1) * 3 ∧ conf < 60 then
      pushWarning r4 "Text appears to contain many non-alphanumeric characters. This may indicate the image contains symbols, icons, or non-English text."
    else r4

/-- `extractCode` (extractors.ts, lines 388–400). -/
def extractCode (f : FileModel) (r : ExtractionResult) :
    ExtractionResult × Option String :=
  match f.textContent with
  | .error msg => (r, some msg)
  | .ok content =>
    let r1 := putMeta (putMeta {r with text := content}
      "lineCount" (.j (.num (splitOnNl content.data).length)))
      "language" (.j (.str (strToUpper (getFileExtension f.name))))
    if content.data.contains (Char.ofNat 65533) then
      (pushWarning r1 "File contains replacement characters - possible encoding issues", none)
    else (r1, none)

/-- The notebook strategy's catch handler (extractors.ts, lines 461–464). -/
def nbFail (r : ExtractionResult) : ExtractionResult :=
  {r with errors := r.errors ++ ["Failed to parse notebook. File may be corrupted."],
          text := "[UNREADABLE: Notebook extraction failed]"}

/-- `Array.prototype.join('')` with JavaScript coercions (`null` joins as
the empty string). -/
def jsJoinEmpty : JsonList → List Char
  | .nil => []
  | .cons x xs =>
    (match x with
     | .null => []
     | v => jsToChars v) ++ jsJoinEmpty xs

/-- `Array.isArray(x) ? x.join('') : x`, string-coerced (notebook cell
source and output text fields). -/
def nbJoined (v : Json) : String :=
  match v with
  | .arr xs => String.mk (jsJoinEmpty xs)
  | v => jsToString v

/-- The parts contributed by one notebook output entry (extractors.ts,
lines 438–454); property access on a `null` entry throws. -/
def nbOutputParts (o : Json) : Except String (List String) := do
  let tOpt ← jsField o "text"
  if jsTruthyOpt tOpt then
    pure [nbJoined (tOpt.getD .null)]
  else
    let dOpt ← jsField o "data"
    if jsTruthyOpt dOpt then
      let tp := optChain dOpt "text/plain"
      if jsTruthyOpt tp then
        pure [nbJoined (tp.getD .null)]
      else pure []
    else
      let eOpt ← jsField o "ename"
      if jsTruthyOpt eOpt then
        let evOpt ← jsField o "evalue"
        pure ["[Error: " ++ jsToString (eOpt.getD .null) ++ "] " ++
          (if jsTruthyOpt evOpt then jsToString (evOpt.getD .null) else "")]
      else pure []

/-- The parts contributed by a list of notebook output entries. -/
def nbOutputsParts : JsonList → Except String (List String)
  | .nil => pure []
  | .cons o os => do
    let ps ← nbOutputParts o
    let rest ← nbOutputsParts os
    pure (ps ++ rest)

/-- The parts contributed by one notebook cell (extractors.ts, lines
421–458); `idx` is the 0-based position. -/
def nbCellParts (idx : Nat) (cell : Json) : Except String (List String) := do
  let ctOpt ← jsField cell "cell_type"
  let ct : Json :=
    match ctOpt with
    | some v => if jsTruthy v then v else .str "unknown"
    | none => .str "unknown"
  let header := "=== Cell " ++ natToString (idx + 1) ++ " (" ++ jsToString ct ++ ") ==="
  let srcOpt ← jsField cell "source"
  let srcParts : List String :=
    if jsTruthyOpt srcOpt then [nbJoined (srcOpt.getD .null)] else []
  let outOpt ← jsField cell "outputs"
  let outParts ←
    match outOpt with
    | some (.arr xs) =>
      if 0 < xs.length then do
        let ps ← nbOutputsParts xs
        pure ("\n--- Output ---" :: ps)
      else pure ([] : List String)
    | some (.str s) =>
      if 0 < s.length then Except.error "outputs.forEach is not a function"
      else pure ([] : List String)
    | some (.obj ms) =>
      match jmLookup ms "length" with
      | some (.num n) =>
        if 0 < n then Except.error "outputs.forEach is not a function"
        else pure ([] : List String)
      | _ => pure ([] : List String)
    | _ => pure ([] : List String)
  pure ((header :: srcParts) ++ outParts ++ [""])

/-- The parts contributed by the cells from 0-based position `idx` on. -/
def nbCellsParts (idx : Nat) : JsonList → Except String (List String)
  | .nil => pure []
  | .cons c cs => do
    let ps ← nbCellParts idx c
    let rest ← nbCellsParts (idx + 1) cs
    pure (ps ++ rest)

/-- `extractNotebook` (extractors.ts, lines 402–465): parse the file as
JSON, record the language and cell count, and render cells in order; any
internal throw is caught by the strategy's own handler (metadata written
before the throw is kept, as the mutations are in place). -/
def extractNotebook (f : FileModel) (r : ExtractionResult) : ExtractionResult :=
  match f.textContent with
  | .error _ => nbFail r
  | .ok content =>
    match jsonParse content with
    | none => nbFail r
    | some nb =>
      match jsField nb "metadata" with
      | .error _ => nbFail r
      | .ok mdOpt =>
        let r1 :=
          if jsTruthyOpt mdOpt then
            let md := mdOpt.getD .null
            let lang := jsOrOpt (optChain (jsGetOpt md "kernelspec") "language")
              (jsOrOpt (optChain (jsGetOpt md "language_info") "name") (.str "unknown"))
            putMeta r "notebookLanguage" (.j lang)
          else r
        match jsField nb "cells" with
        | .error _ => nbFail r1
        | .ok cellsOpt =>
          let cellsJ : Json :=
            match cellsOpt with
            | some c => if jsTruthy c then c else .arr .nil
            | none => .arr .nil
          let cellInfo : MetaVal × Option JsonList :=
            match cellsJ with
            | .arr xs => (.j (.num xs.length), some xs)
            | .str s => (.j (.num s.length), none)
            | .obj ms =>
              ((match jmLookup ms "length" with
                | some v => .j v
                | none => .undef), none)
            | _ => (.undef, none)
          let r2 := putMeta r1 "cellCount" cellInfo.1
          match cellInfo.2 with
          | none => nbFail r2
          | some cells =>
            match nbCellsParts 0 cells with
            | .error _ => nbFail r2
            | .ok parts => {r2 with text := joinSep "\n" parts}

/-- The binary-content heuristic phase of `extractUnknown` (extractors.ts,
lines 471–496): sample the first 1000 characters; if more than 10% are
control characters, keep only printable content (sentinel plus error if
fewer than 10 characters survive), else pass the text through. -/
def unknownBase (content : String) (r : ExtractionResult) : ExtractionResult :=
  let binaryCheck := content.data.take 1000
  let nonPrintable := binaryCheck.countP
    (fun c => c.toNat ≤ 8 || (14 ≤ c.toNat && c.toNat ≤ 31))
  if nonPrintable * 10 > binaryCheck.length then
    let r1 := pushWarning r "File appears to be binary - extracted readable portions only"
    let readable := jsTrim (String.mk (collapseSp (content.data.map
      (fun c =>
        if (32 ≤ c.toNat && c.toNat ≤ 126) || c = '\r' || c = '\n' || c = '\t' then c
        else ' '))))
    if readable.length < 10 then
      {r1 with errors := r1.errors ++ ["No readable text content found"],
               text := "[UNREADABLE: Binary file with no extractable text]"}
    else {r1 with text := readable}
  else {r with text := content}

/-- The recovered-as-text rendering of one archive entry (extractors.ts,
lines 507–518): non-directory entries whose text read succeeds and is
non-empty, under a `=== path ===` marker; others are silently skipped. -/
def zipEntryPart (e : ZipEntry) : Option String :=
  if e.dir then none
  else
    match e.content with
    | .ok c => if c.length > 0 then some ("=== " ++ e.path ++ " ===\n" ++ c) else none
    | .error _ => none

/-- All recovered entries of an archive, in enumeration order. -/
def zipRecovered (entries : List ZipEntry) : List String :=
  entries.filterMap zipEntryPart

/-- `extractUnknown` (extractors.ts, lines 467–532): best-effort warning,
text decode with binary heuristic, ZIP-signature sniff and archive
recovery.  A failing `file.slice(0,4).arrayBuffer()` read reaches the
strategy's outer catch (which also overwrites any already-extracted text
with the sentinel); a failing archive parse keeps the earlier result. -/
def extractUnknown (env : Env) (f : FileModel) (r : ExtractionResult) : ExtractionResult :=
  let r0 := pushWarning r "Unknown file format - attempting best-effort text extraction"
  match f.textContent with
  | .error _ =>
    {r0 with errors := r0.errors ++ ["Could not read file as text"],
             text := "[UNREADABLE: File extraction failed]"}
  | .ok content =>
    let r1 := unknownBase content r0
    match f.bytes with
    | .error _ =>
      {r1 with errors := r1.errors ++ ["Could not read file as text"],
               text := "[UNREADABLE: File extraction failed]"}
    | .ok bs =>
      let header := bs.take 4
      if header[0]? = some 0x50 ∧ header[1]? = some 0x4B then
        let r2 := pushWarning r1
          "File appears to be a ZIP-based format. Consider extracting individual files."
        match env.zipLoad bs with
        | .error _ => r2
        | .ok entries =>
          let textFiles := zipRecovered entries
          if textFiles.length > 0 then
            {r2 with text := joinSep "\n\n" textFiles,
                     warnings := r2.warnings ++
                       ["Extracted " ++ natToString textFiles.length ++
                        " text file(s) from archive"]}
          else r2
      else r1

/-! ## Orchestrator (`extractText`, extractors.ts lines 12–68) -/

/-- The freshly initialized result (extractors.ts, lines 17–31). -/
def initResult (f : FileModel) : ExtractionResult :=
  let up := strToUpper (getFileExtension f.name)
  { fileName := f.name
    fileType := if up = "" then "UNKNOWN" else up
    category := getFileCategory f.name
    status := .processing
    text := ""
    pages := none
    confidence := none
    warnings := []
    errors := []
    metadata := [("size", .j (.num f.size)), ("lastModified", .j (.str f.lastModifiedISO))] }

/-- The category dispatch (extractors.ts, lines 34–52). -/
def dispatchStrategy (env : Env) (f : FileModel) (r : ExtractionResult) :
    ExtractionResult × Option String :=
  match getFileCategory f.name with
  | .document => extractDocument env f r
  | .data => extractData env f r
  | .image => (extractImage env f r, none)
  | .code => extractCode f r
  | .notebook => (extractNotebook f r, none)
  | .unknown => (extractUnknown env f r, none)

/-- The status derivation (extractors.ts, lines 54–60); note that the
`errors = []` and `text = ""` combination falls through every branch and
leaves the status as it was. -/
def classifyStatus (r : ExtractionResult) : ExtractionResult :=
  if r.errors.length = 0 ∧ r.text.length > 0 then
    {r with status := if r.warnings.length > 0 then .Partial else .success}
  else if r.errors.length > 0 ∧ r.text.length > 0 then
    {r with status := .Partial}
  else if r.errors.length > 0 then
    {r with status := .error}
  else r

/-- `extractText` (extractors.ts, lines 12–68).  The result type is
`Except String ExtractionResult` so that "the returned promise never
rejects" is expressible; the `try`/`catch` around the dispatch is the
`Option String` match. -/
def extractText (env : Env) (f : FileModel) : Except String ExtractionResult :=
  match dispatchStrategy env f (initResult f) with
  | (r1, none) => .ok (classifyStatus r1)
  | (r1, some msg) =>
    .ok {r1 with status := .error,
                 errors := r1.errors ++ ["Extraction failed: " ++ msg]}

/-! ## Concrete environments and files used by witnesses and
counterexamples -/

/-- An environment in which every collaborator call fails (never consulted
on the paths the concrete files below take, unless stated). -/
def envNull : Env :=
  { pdfLoad := fun _ => .error "unavailable"
    mammoth := fun _ => .error "unavailable"
    xlsxRead := fun _ => .error "unavailable"
    ocr := fun _ => .error "unavailable"
    zipLoad := fun _ => .error "unavailable"
    domParse := fun _ => .otherNode }

/-- A zero-byte `empty.txt` whose reads succeed. -/
def emptyTxtFile : FileModel :=
  { name := "empty.txt", size := 0, lastModifiedISO := "1970-01-01T00:00:00.000Z",
    textContent := .ok "", bytes := .ok [] }

/-- A small CSV file whose read succeeds. -/
def csvFile : FileModel :=
  { name := "data.csv", size := 3, lastModifiedISO := "1970-01-01T00:00:00.000Z",
    textContent := .ok "a,b", bytes := .ok [] }

/-- A text file whose `file.text()` read rejects. -/
def unreadableTxtFile : FileModel :=
  { name := "broken.txt", size := 1, lastModifiedISO := "1970-01-01T00:00:00.000Z",
    textContent := .error "read failed", bytes := .error "read failed" }

/-- A two-page PDF document whose second page throws during extraction. -/
def pdfTwoPages : PdfDoc :=
  { numPages := 2
    getPage := fun i =>
      if i = 1 then .ok [some ("Hello", 10), some ("world", 10)]
      else .error "page corrupted" }

/-- `envNull` with a PDF loader that opens `pdfTwoPages`. -/
def envPdf : Env := { envNull with pdfLoad := fun _ => .ok pdfTwoPages }

/-- A `report.pdf` file whose bytes read succeeds. -/
def reportPdfFile : FileModel :=
  { name := "report.pdf", size := 100, lastModifiedISO := "1970-01-01T00:00:00.000Z",
    textContent := .ok "", bytes := .ok [37, 80, 68, 70] }

/-- The spec scenario's `data.json` content `{"a":1,"b":[2,3]}`. -/
def jsonFile : FileModel :=
  { name := "data.json", size := 17, lastModifiedISO := "1970-01-01T00:00:00.000Z",
    textContent := .ok "\x7b\"a\":1,\"b\":[2,3]\x7d", bytes := .ok [] }

/-- `envNull` with a ZIP reader that recovers `notes.txt` = "hello". -/
def envZip : Env :=
  { envNull with
    zipLoad := fun _ => .ok [{ path := "notes.txt", dir := false, content := .ok "hello" }] }

/-- An `archive.zip` bearing the ZIP signature, readable as text. -/
def archiveZipFile : FileModel :=
  { name := "archive.zip", size := 9, lastModifiedISO := "1970-01-01T00:00:00.000Z",
    textContent := .ok "PKzipdata", bytes := .ok [80, 75, 3, 4] }

/-- A file of unknown category. -/
def binFile : FileModel :=
  { name := "data.bin", size := 4, lastModifiedISO := "1970-01-01T00:00:00.000Z",
    textContent := .ok "abcd", bytes := .ok [97, 98, 99, 100] }

/-! ## Theorems settling the claims -/

theorem splitOnDot_length (l : List Char) :
    (splitOnDot l).length = l.count '.' + 1 := by
  induction l with
  | nil => rfl
  | cons c rest ih =>
    by_cases h : c = '.'
    · subst h
      simp [splitOnDot, List.count_cons, ih]
    · simp [splitOnDot, h, List.count_cons, ih]

theorem getFileExtension_eq_spec (name : String) :
    getFileExtension name = specExtension name := by
  unfold getFileExtension specExtension
  by_cases h : (name.data.map Char.toLower).contains '.' = true
  · have hmem : '.' ∈ name.data.map Char.toLower := by
      simpa using h
    have hcount : 0 < (name.data.map Char.toLower).count '.' :=
      List.count_pos_iff.mpr hmem
    have hlen : (splitOnDot (name.data.map Char.toLower)).length > 1 := by
      rw [splitOnDot_length]; omega
    rw [if_pos hlen, if_pos h]
  · have hmem : '.' ∉ name.data.map Char.toLower := by
      simpa using h
    have hcount : (name.data.map Char.toLower).count '.' = 0 := by
      simpa using List.count_eq_zero.mpr hmem
    have hlen : ¬ (splitOnDot (name.data.map Char.toLower)).length > 1 := by
      rw [splitOnDot_length, hcount]; omega
    rw [if_neg hlen, if_neg h]

theorem extension_map_lookup_check :
    EXTENSION_MAP.all (fun p => EXTENSION_MAP.lookup p.1 == some p.2) = true := rfl

/-- C5: classification is total, pure, and I/O-free.  For every file name,
the extension computed by the source equals the spec's "last `.`-delimited
segment of the lowercased name, empty when there is no dot"; every
extension present in `EXTENSION_MAP` maps to its documented category, and
every absent extension (including the empty one) maps to `unknown`.
Determinism is inherent: the embedding is a function. -/
theorem claim_C5 (name : String) :
    getFileExtension name = specExtension name ∧
    getFileCategory name = ((EXTENSION_MAP.lookup (getFileExtension name)).getD .unknown) ∧
    (∀ ext cat, (ext, cat) ∈ EXTENSION_MAP → getFileExtension name = ext →
      getFileCategory name = cat) ∧
    (EXTENSION_MAP.lookup (getFileExtension name) = none → getFileCategory name = .unknown) := by
  refine ⟨getFileExtension_eq_spec name, rfl, ?_, ?_⟩
  · intro ext cat hmem hext
    have hall := List.all_eq_true.mp extension_map_lookup_check (ext, cat) hmem
    have hlook : EXTENSION_MAP.lookup ext = some cat := by
      simpa using hall
    simp [getFileCategory, hext, hlook]
  · intro hnone
    simp [getFileCategory, hnone]

theorem claim_C5_witness :
    getFileCategory "photo.PNG" = .image ∧ getFileCategory "Makefile" = .unknown := by
  constructor
  · exact (claim_C5 "photo.PNG").2.2.1 "png" .image (by decide) rfl
  · exact (claim_C5 "Makefile").2.2.2 rfl

theorem string_pos_iff (s : String) : s.length > 0 ↔ s ≠ "" := by
  constructor
  · intro h he
    subst he
    simp at h
  · intro h
    rcases s with ⟨data⟩
    rcases data with _ | ⟨c, cs⟩
    · exact absurd rfl h
    · simp [String.length]

theorem dispatch_throw (env : Env) (f : FileModel) (r r' : ExtractionResult) (msg : String)
    (h : dispatchStrategy env f r = (r', some msg)) : r' = r := by
  unfold dispatchStrategy extractDocument extractData extractHTML extractRTF extractJSON
    extractCode at h
  repeat' split at h
  all_goals simp_all

/-- C1: the status invariant of `extractText`: no errors, no warnings and
non-empty text give `success`; no errors, some warnings and non-empty text
give `partial`; errors with non-empty text give `partial`; errors with
empty text give `error`. -/
theorem claim_C1 (env : Env) (f : FileModel) (r : ExtractionResult)
    (h : extractText env f = .ok r) :
    (r.errors = [] → r.warnings = [] → r.text ≠ "" → r.status = .success) ∧
    (r.errors = [] → r.warnings ≠ [] → r.text ≠ "" → r.status = .Partial) ∧
    (r.errors ≠ [] → r.text ≠ "" → r.status = .Partial) ∧
    (r.errors ≠ [] → r.text = "" → r.status = .error) := by
  unfold extractText at h
  rcases hd : dispatchStrategy env f (initResult f) with ⟨r1, exc⟩
  rw [hd] at h
  cases exc with
  | none =>
    simp only [Except.ok.injEq] at h
    subst h
    unfold classifyStatus
    split
    next hA =>
      dsimp only
      refine ⟨?_, ?_, ?_, ?_⟩
      · intro _ hw _
        rw [if_neg]
        rw [hw]
        simp
      · intro _ hw _
        rw [if_pos (List.length_pos.mpr hw)]
      · intro he _
        exact absurd (List.length_eq_zero.mp hA.1) he
      · intro he _
        exact absurd (List.length_eq_zero.mp hA.1) he
    next hnA =>
      split
      next hB =>
        dsimp only
        refine ⟨?_, ?_, ?_, ?_⟩
        · intro he
          rw [he] at hB
          simp at hB
        · intro he
          rw [he] at hB
          simp at hB
        · intro _ _
          rfl
        · intro _ ht
          rw [ht] at hB
          simp at hB
      next hnB =>
        split
        next hC =>
          dsimp only
          refine ⟨?_, ?_, ?_, ?_⟩
          · intro he
            rw [he] at hC
            simp at hC
          · intro he
            rw [he] at hC
            simp at hC
          · intro _ ht
            have hlen := (string_pos_iff r1.text).mpr ht
            exact absurd ⟨hC, hlen⟩ hnB
          · intro _ _
            rfl
        next hnC =>
          have herr : r1.errors = [] := by
            have h0 : ¬ r1.errors.length > 0 := hnC
            exact List.length_eq_zero.mp (by omega)
          refine ⟨?_, ?_, ?_, ?_⟩
          · intro _ _ ht
            have hlen := (string_pos_iff r1.text).mpr ht
            exact absurd ⟨by simp [herr], hlen⟩ hnA
          · intro _ _ ht
            have hlen := (string_pos_iff r1.text).mpr ht
            exact absurd ⟨by simp [herr], hlen⟩ hnA
          · intro he _
            exact absurd herr he
          · intro he _
            exact absurd herr he
  | some msg =>
    simp only [Except.ok.injEq] at h
    subst h
    have hr1 : r1 = initResult f := dispatch_throw env f (initResult f) r1 msg hd
    subst hr1
    refine ⟨?_, ?_, ?_, ?_⟩
    · intro he
      simp [initResult] at he
    · intro he
      simp [initResult] at he
    · intro _ ht
      exact absurd rfl ht
    · intro _ _
      rfl

/-- C2: `extractText` never rejects: for every environment and every input
file (zero-byte and mismatched-content files included), it returns `.ok`
with a result record; no strategy lets an exception escape to the caller. -/
theorem claim_C2 (env : Env) (f : FileModel) :
    ∃ r, extractText env f = .ok r := by
  unfold extractText
  rcases hd : dispatchStrategy env f (initResult f) with ⟨r1, exc⟩
  cases exc with
  | none => exact ⟨_, rfl⟩
  | some msg => exact ⟨_, rfl⟩

theorem extractUnknown_props (env : Env) (f : FileModel) (r : ExtractionResult) :
    (extractUnknown env f r).status = r.status ∧
    r.warnings.length + 1 ≤ (extractUnknown env f r).warnings.length := by
  unfold extractUnknown unknownBase
  dsimp only
  repeat' split
  all_goals simp [pushWarning]

/-- C10: a file whose category classifies as `unknown` never yields status
`success`: the fallback strategy unconditionally appends a best-effort
warning before extracting, so the best achievable terminal status is
`partial`. -/
theorem claim_C10 (env : Env) (f : FileModel)
    (hcat : getFileCategory f.name = .unknown) (r : ExtractionResult)
    (h : extractText env f = .ok r) : r.status ≠ .success := by
  unfold extractText dispatchStrategy at h
  rw [hcat] at h
  simp only [Except.ok.injEq] at h
  subst h
  obtain ⟨hst, hw⟩ := extractUnknown_props env f (initResult f)
  have hwpos : (extractUnknown env f (initResult f)).warnings.length > 0 := by
    have h0 : (initResult f).warnings.length = 0 := rfl
    omega
  unfold classifyStatus
  split
  next hA =>
    dsimp only
    simp [hwpos]
  next hnA =>
    split
    next hB =>
      simp
    next hnB =>
      split
      next hC =>
        simp
      next hnC =>
        rw [hst]
        simp [initResult]

/-- C3 (amended): `text` is always a defined string, and every
strategy-internal failure handler substitutes a bracketed
`[UNREADABLE: ...]` sentinel; but `extractText` may return *empty* text
when extraction succeeds and recovers nothing (e.g. a zero-byte `.txt`
file), so the claim's "non-empty for every input file" fails. -/
theorem claim_C3_amended (env : Env) (f : FileModel) (r : ExtractionResult) :
    (∀ msg, f.bytes = .error msg →
      (extractPDF env f r).text = "[UNREADABLE: PDF extraction failed]" ∧
      (extractDOCX env f r).text = "[UNREADABLE: DOCX extraction failed]" ∧
      (extractExcel env f r).text = "[UNREADABLE: Excel extraction failed]") ∧
    (∀ bs msg, f.bytes = .ok bs → env.pdfLoad bs = .error msg →
      (extractPDF env f r).text = "[UNREADABLE: PDF extraction failed]") ∧
    (∀ bs msg, f.bytes = .ok bs → env.mammoth bs = .error msg →
      (extractDOCX env f r).text = "[UNREADABLE: DOCX extraction failed]") ∧
    (∀ bs msg, f.bytes = .ok bs → env.xlsxRead bs = .error msg →
      (extractExcel env f r).text = "[UNREADABLE: Excel extraction failed]") ∧
    (∀ content, f.textContent = .ok content → jsonParse content = none →
      (extractNotebook f r).text = "[UNREADABLE: Notebook extraction failed]") ∧
    (∀ msg, env.ocr f = .error msg →
      (extractImage env f r).text = "[UNREADABLE: OCR extraction failed]") ∧
    (∀ msg, f.textContent = .error msg →
      (extractUnknown env f r).text = "[UNREADABLE: File extraction failed]" ∧
      (extractNotebook f r).text = "[UNREADABLE: Notebook extraction failed]") := by
  refine ⟨?_, ?_, ?_, ?_, ?_, ?_, ?_⟩
  · intro msg hb
    refine ⟨?_, ?_, ?_⟩
    · unfold extractPDF extractPDFAux
      rw [hb]
    · unfold extractDOCX
      rw [hb]
    · unfold extractExcel
      rw [hb]
  · intro bs msg hb hp
    unfold extractPDF extractPDFAux
    simp only [hb]
    rw [hp]
  · intro bs msg hb hm
    unfold extractDOCX
    simp only [hb]
    rw [hm]
  · intro bs msg hb hx
    unfold extractExcel
    simp only [hb]
    rw [hx]
  · intro content hc hj
    unfold extractNotebook
    simp only [hc, hj]
    rfl
  · intro msg ho
    unfold extractImage
    rw [ho]
  · intro msg ht
    constructor
    · unfold extractUnknown
      rw [ht]
    · unfold extractNotebook
      rw [ht]
      rfl

theorem claim_C3_amended_witness :
    (extractPDF envNull unreadableTxtFile (initResult unreadableTxtFile)).text =
      "[UNREADABLE: PDF extraction failed]" ∧
    (extractNotebook unreadableTxtFile (initResult unreadableTxtFile)).text =
      "[UNREADABLE: Notebook extraction failed]" ∧
    (extractImage envNull unreadableTxtFile (initResult unreadableTxtFile)).text =
      "[UNREADABLE: OCR extraction failed]" := by
  obtain ⟨h1, _, _, _, _, h6, h7⟩ :=
    claim_C3_amended envNull unreadableTxtFile (initResult unreadableTxtFile)
  exact ⟨(h1 "read failed" rfl).1, (h7 "read failed" rfl).2, h6 "unavailable" rfl⟩

/-- C3 counterexample: the zero-byte `empty.txt` is an input file for which
the result returned by `extractText` has an *empty* text field, refuting
"non-empty text for every input file" as stated. -/
theorem claim_C3_counterexample :
    (extractText envNull emptyTxtFile).map (fun r => r.text) = .ok "" := rfl

/-- C4: evaluating the code at the failing input: for a zero-byte
`empty.txt`, `extractText` returns with status still `processing` and no
synthesized error — it does not resolve the no-errors/empty-text case to a
terminal `error` as the claim states. -/
theorem claim_C4 :
    (extractText envNull emptyTxtFile).map (fun r => (r.status, r.errors, r.text)) =
      .ok (.processing, [], "") := rfl

theorem classifyStatus_fields (r : ExtractionResult) :
    (classifyStatus r).pages = r.pages ∧ (classifyStatus r).text = r.text ∧
    (classifyStatus r).warnings = r.warnings ∧ (classifyStatus r).errors = r.errors := by
  unfold classifyStatus
  repeat' split
  all_goals simp

/-- C6: for every PDF whose load succeeds: `pages` is exactly the per-page
rendering of pages 1..N in order (so it has length N and
`pages[i].pageNumber = i+1`), the text is the `"\n\n"`-join of the
`--- Page i ---`-headed parts in ascending page order, a failing page
contributes exactly its per-page warning and its `[UNREADABLE: ...]`
placeholder, and a succeeding page contributes its extracted text — so a
single page failure does not abort the remaining pages. -/
theorem claim_C6 (env : Env) (f : FileModel) (bs : List Nat) (pdf : PdfDoc)
    (hb : f.bytes = .ok bs) (hp : env.pdfLoad bs = .ok pdf)
    (hext : getFileExtension f.name = "pdf") :
    ∃ r, extractText env f = .ok r ∧
      r.pages = some ((List.range' 1 pdf.numPages).map (pdfPageOf pdf)) ∧
      (∀ pl, r.pages = some pl → pl.length = pdf.numPages ∧
        (∀ i (h : i < pl.length), (pl.get ⟨i, h⟩).pageNumber = i + 1)) ∧
      r.text = joinSep "\n\n" ((List.range' 1 pdf.numPages).map (pdfPartOf pdf)) ∧
      (∀ i, pdfPartOf pdf i =
        "--- Page " ++ natToString i ++ " ---\n" ++ (pdfPageOf pdf i).text) ∧
      r.warnings = (List.range' 1 pdf.numPages).flatMap (pdfWarnOf pdf) ∧
      (∀ i items, pdf.getPage i = .ok items →
        pdfPageOf pdf i = ⟨i, pdfPageText items⟩ ∧ pdfWarnOf pdf i = []) ∧
      (∀ i msg, pdf.getPage i = .error msg →
        pdfPageOf pdf i = ⟨i, "[UNREADABLE: Page extraction failed]"⟩ ∧
        pdfWarnOf pdf i =
          ["Page " ++ natToString i ++ ": Extraction error - possible corruption"]) := by
  have hcat : getFileCategory f.name = .document := by
    unfold getFileCategory
    rw [hext]
    rfl
  have hpdfaux : extractPDFAux env f (initResult f) =
      ({(putMeta (initResult f) "pageCount" (.j (.num pdf.numPages))) with
          pages := some ((List.range' 1 pdf.numPages).map (pdfPageOf pdf)),
          warnings := (putMeta (initResult f) "pageCount" (.j (.num pdf.numPages))).warnings ++
            (List.range' 1 pdf.numPages).flatMap (pdfWarnOf pdf),
          text := joinSep "\n\n" ((List.range' 1 pdf.numPages).map (pdfPartOf pdf))}, true) := by
    unfold extractPDFAux
    simp only [hb, hp]
  refine ⟨classifyStatus (extractPDF env f (initResult f)), ?_, ?_, ?_, ?_, ?_, ?_, ?_, ?_⟩
  · unfold extractText dispatchStrategy
    rw [hcat]
    unfold extractDocument
    rw [hext]
    rfl
  · rw [(classifyStatus_fields _).1]
    unfold extractPDF
    rw [hpdfaux]
  · intro pl hpl
    rw [(classifyStatus_fields _).1] at hpl
    unfold extractPDF at hpl
    rw [hpdfaux] at hpl
    simp only [Option.some.injEq] at hpl
    subst hpl
    constructor
    · simp
    · intro i h
      simp [pdfPageOf]
      split
      · simp [List.getElem_range']
        omega
      · simp [List.getElem_range']
        omega
  · rw [(classifyStatus_fields _).2.1]
    unfold extractPDF
    rw [hpdfaux]
  · intro i
    rfl
  · rw [(classifyStatus_fields _).2.2.1]
    unfold extractPDF
    rw [hpdfaux]
    simp [initResult, putMeta]
  · intro i items hpage
    unfold pdfPageOf pdfWarnOf
    rw [hpage]
    exact ⟨rfl, rfl⟩
  · intro i msg hpage
    unfold pdfPageOf pdfWarnOf
    rw [hpage]
    exact ⟨rfl, rfl⟩

/-- C7: whenever the PDF strategy successfully opens the paginated document
(the bytes read and the load both succeed), `pdf.destroy()` is called
before the strategy returns (the timeout race is modelled as a failed
load, under which the document is never opened). -/
theorem claim_C7 (env : Env) (f : FileModel) (r : ExtractionResult)
    (bs : List Nat) (pdf : PdfDoc)
    (hb : f.bytes = .ok bs) (hp : env.pdfLoad bs = .ok pdf) :
    (extractPDFAux env f r).2 = true := by
  unfold extractPDFAux
  simp only [hb, hp]

/-- C9: in the unknown-format fallback on a ZIP-signature file: if the
archive opens and at least one entry is recovered, the recovered entries
(joined under `=== path ===` markers) replace the earlier text and a
count-of-recovered-files warning is appended; if the archive open throws,
the earlier fallback text is kept unchanged. -/
theorem claim_C9 (env : Env) (f : FileModel) (r : ExtractionResult)
    (content : String) (bs : List Nat)
    (ht : f.textContent = .ok content) (hb : f.bytes = .ok bs)
    (h0 : (bs.take 4)[0]? = some 0x50) (h1 : (bs.take 4)[1]? = some 0x4B) :
    (∀ entries, env.zipLoad bs = .ok entries → zipRecovered entries ≠ [] →
      (extractUnknown env f r).text = joinSep "\n\n" (zipRecovered entries) ∧
      ("Extracted " ++ natToString (zipRecovered entries).length ++
        " text file(s) from archive") ∈ (extractUnknown env f r).warnings) ∧
    (∀ msg, env.zipLoad bs = .error msg →
      (extractUnknown env f r).text =
        (unknownBase content
          (pushWarning r "Unknown file format - attempting best-effort text extraction")).text) := by
  unfold extractUnknown
  simp only [ht, hb]
  rw [if_pos ⟨h0, h1⟩]
  constructor
  · intro entries he hne
    simp only [he]
    rw [if_pos (List.length_pos.mpr hne)]
    constructor
    · rfl
    · simp [pushWarning]
  · intro msg he
    simp only [he]
    rfl

mutual
theorem cost_pos : ∀ v : Json, 1 ≤ cost v
  | .null => le_refl 1
  | .bool _ => le_refl 1
  | .num _ => le_refl 1
  | .str _ => le_refl 1
  | .arr xs => Nat.le_add_right 1 (costItems xs)
  | .obj ms => Nat.le_add_right 1 (costMems ms)
theorem costItems_pos : ∀ xs : JsonList, 1 ≤ costItems xs
  | .nil => le_refl 1
  | .cons _ _ => Nat.le_add_right 1 _
theorem costMems_pos : ∀ ms : JsonMembers, 1 ≤ costMems ms
  | .nil => le_refl 1
  | .cons _ _ _ => Nat.le_add_right 1 _
end

theorem digit_toNat_bounds (c : Char) (h : c.isDigit = true) :
    48 ≤ c.toNat ∧ c.toNat ≤ 57 := by
  simp [Char.isDigit] at h
  exact h

theorem digit_not_ws (c : Char) (h : c.isDigit = true) : isWsChar c = false := by
  obtain ⟨h1, h2⟩ := digit_toNat_bounds c h
  unfold isWsChar
  have hs : c ≠ ' ' := by
    intro he
    rw [he] at h1
    simp at h1
  have hn : c ≠ '\n' := by
    intro he
    rw [he] at h1
    simp at h1
  have htb : c ≠ '\t' := by
    intro he
    rw [he] at h1
    simp at h1
  have hr : c ≠ '\r' := by
    intro he
    rw [he] at h1
    simp at h1
  simp [hs, hn, htb, hr]

theorem digit_ne_brackets (c : Char) (h : c.isDigit = true) :
    c ≠ ']' ∧ c ≠ '}' := by
  obtain ⟨h1, h2⟩ := digit_toNat_bounds c h
  constructor
  · intro he
    rw [he] at h2
    simp at h2
  · intro he
    rw [he] at h2
    simp at h2

theorem dChar_isDigit (k : Nat) (h : k < 10) : (Nat.digitChar k).isDigit = true := by
  interval_cases k <;> decide

theorem charDigit_dChar (k : Nat) (h : k < 10) : charDigit (Nat.digitChar k) = k := by
  interval_cases k <;> decide

theorem natCharsAux_all_digit (f : Nat) :
    ∀ n, n < f → ∀ c ∈ natCharsAux f n, c.isDigit = true := by
  induction f with
  | zero => intro n hn; omega
  | succ g ih =>
    intro n hn c hc
    unfold natCharsAux at hc
    by_cases h10 : n < 10
    · rw [if_pos h10] at hc
      simp at hc
      subst hc
      exact dChar_isDigit n h10
    · rw [if_neg h10] at hc
      rcases List.mem_append.mp hc with hm | hm
      · exact ih (n / 10) (by omega) c hm
      · simp at hm
        subst hm
        exact dChar_isDigit (n % 10) (by omega)

theorem natChars_all_digit (m : Nat) : ∀ c ∈ natChars m, c.isDigit = true :=
  natCharsAux_all_digit (m + 1) m (by omega)

theorem natCharsAux_ne_nil (f : Nat) : ∀ n, n < f → natCharsAux f n ≠ [] := by
  induction f with
  | zero => intro n hn; omega
  | succ g ih =>
    intro n hn
    unfold natCharsAux
    by_cases h10 : n < 10
    · rw [if_pos h10]
      simp
    · rw [if_neg h10]
      simp

theorem natChars_ne_nil (m : Nat) : natChars m ≠ [] :=
  natCharsAux_ne_nil (m + 1) m (by omega)

theorem digitsVal_append_digit (ds : List Char) (c : Char) :
    digitsVal (ds ++ [c]) = 10 * digitsVal ds + charDigit c := by
  unfold digitsVal
  rw [List.map_append, List.reverse_append]
  simp [Nat.ofDigits_cons]
  ring

theorem digitsVal_natCharsAux (f : Nat) :
    ∀ n, n < f → digitsVal (natCharsAux f n) = n := by
  induction f with
  | zero => intro n hn; omega
  | succ g ih =>
    intro n hn
    unfold natCharsAux
    by_cases h10 : n < 10
    · rw [if_pos h10]
      unfold digitsVal
      simp [Nat.ofDigits_cons, charDigit_dChar n h10]
    · rw [if_neg h10]
      rw [digitsVal_append_digit, ih (n / 10) (by omega), charDigit_dChar (n % 10) (by omega)]
      omega

theorem digitsVal_natChars (m : Nat) : digitsVal (natChars m) = m :=
  digitsVal_natCharsAux (m + 1) m (by omega)

theorem skipWs_cons (c : Char) (l : List Char) :
    skipWs (c :: l) = if isWsChar c then skipWs l else c :: l := rfl

theorem skipWs_cons_not_ws (c : Char) (l : List Char) (h : isWsChar c = false) :
    skipWs (c :: l) = c :: l := by
  rw [skipWs_cons, h]
  simp

theorem skipWs_cons_ws (c : Char) (l : List Char) (h : isWsChar c = true) :
    skipWs (c :: l) = skipWs l := by
  rw [skipWs_cons, h]
  simp

theorem skipWs_append_ws (l t : List Char) (h : ∀ c ∈ l, isWsChar c = true) :
    skipWs (l ++ t) = skipWs t := by
  induction l with
  | nil => simp
  | cons c rest ih =>
    rw [List.cons_append, skipWs_cons_ws c _ (h c (by simp))]
    exact ih (fun c hc => h c (by simp [hc]))

theorem skipWs_indent (d : Nat) (t : List Char) :
    skipWs (indentChars d ++ t) = skipWs t := by
  apply skipWs_append_ws
  intro c hc
  unfold indentChars at hc
  have := List.eq_of_mem_replicate hc
  subst this
  rfl

theorem skipWs_nl (t : List Char) : skipWs ('\n' :: t) = skipWs t := by
  apply skipWs_cons_ws
  rfl

theorem parseStr_round (s rest : List Char) :
    parseStrBody (escapeChars s ++ '"' :: rest) = some (s, rest) := by
  induction s with
  | nil =>
    unfold escapeChars parseStrBody
    simp
  | cons c cs ih =>
    unfold escapeChars escChar
    by_cases h1 : c = '"'
    · subst h1
      simp only [if_pos rfl]
      unfold parseStrBody
      simp [parseStrBody, unescChar, ih]
    · rw [if_neg h1]
      by_cases h2 : c = '\\'
      · subst h2
        simp only [if_neg h1, if_pos rfl]
        simp [parseStrBody, unescChar, ih]
      · rw [if_neg h2]
        by_cases h3 : c = '\n'
        · subst h3
          simp [parseStrBody, unescChar, ih]
        · rw [if_neg h3]
          by_cases h4 : c = '\t'
          · subst h4
            simp [parseStrBody, unescChar, ih]
          · rw [if_neg h4]
            by_cases h5 : c = '\r'
            · subst h5
              simp [parseStrBody, unescChar, ih]
            · rw [if_neg h5]
              simp only [List.nil_append, List.cons_append]
              unfold parseStrBody
              rw [if_neg h1, if_neg h2, ih]

theorem takeDigits_spec (ds rest : List Char) (hds : ∀ c ∈ ds, c.isDigit = true)
    (hrest : headOk rest) : takeDigits (ds ++ rest) = (ds, rest) := by
  induction ds with
  | nil =>
    simp only [List.nil_append]
    cases rest with
    | nil => rfl
    | cons c t =>
      unfold takeDigits
      unfold headOk at hrest
      rw [hrest]
      simp
  | cons c cs ih =>
    rw [List.cons_append]
    unfold takeDigits
    rw [hds c (by simp)]
    simp only
    rw [ih (fun c hc => hds c (by simp [hc]))]
    simp

theorem natChars_head (m : Nat) :
    ∃ c t, natChars m = c :: t ∧ c.isDigit = true := by
  rcases hnc : natChars m with _ | ⟨c, t⟩
  · exact absurd hnc (natChars_ne_nil m)
  · refine ⟨c, t, rfl, ?_⟩
    have := natChars_all_digit m c (by rw [hnc]; simp)
    exact this

theorem ppVal_head (d : Nat) (v : Json) :
    ∃ c t, ppVal d v = c :: t ∧ isWsChar c = false ∧ c ≠ ']' ∧ c ≠ '}' := by
  have pack : ∀ c : Char, c.isDigit = true ∨
      (isWsChar c = false ∧ c ≠ ']' ∧ c ≠ '}' ∧ c.isDigit = false) →
      isWsChar c = false ∧ c ≠ ']' ∧ c ≠ '}' := by
    rintro c (hd | hrest)
    · exact ⟨digit_not_ws c hd, digit_ne_brackets c hd⟩
    · exact ⟨hrest.1, hrest.2.1, hrest.2.2.1⟩
  cases v with
  | num n =>
    unfold ppVal intChars
    by_cases hneg : n < 0
    · rw [if_pos hneg]
      exact ⟨'-', _, rfl, pack '-' (Or.inr (by decide))⟩
    · rw [if_neg hneg]
      obtain ⟨c, t, hct, hd⟩ := natChars_head n.natAbs
      exact ⟨c, t, hct, pack c (Or.inl hd)⟩
  | null => exact ⟨'n', _, rfl, pack 'n' (Or.inr (by decide))⟩
  | bool b =>
    cases b with
    | true => exact ⟨'t', _, rfl, pack 't' (Or.inr (by decide))⟩
    | false => exact ⟨'f', _, rfl, pack 'f' (Or.inr (by decide))⟩
  | str s => exact ⟨'"', _, rfl, pack '"' (Or.inr (by decide))⟩
  | arr xs =>
    cases xs with
    | nil => exact ⟨'[', _, rfl, pack '[' (Or.inr (by decide))⟩
    | cons x xs => exact ⟨'[', _, rfl, pack '[' (Or.inr (by decide))⟩
  | obj ms =>
    cases ms with
    | nil => exact ⟨'{', _, rfl, pack '{' (Or.inr (by decide))⟩
    | cons k v ms => exact ⟨'{', _, rfl, pack '{' (Or.inr (by decide))⟩

theorem skipWs_pp (d : Nat) (v : Json) (rest : List Char) :
    skipWs (ppVal d v ++ rest) = ppVal d v ++ rest := by
  obtain ⟨c, t, hct, hws, _, _⟩ := ppVal_head d v
  rw [hct, List.cons_append, skipWs_cons_not_ws c _ hws]

theorem indent_length (k : Nat) : (indentChars k).length = 2 * k := by
  simp [indentChars]

theorem ppItems_eq (d : Nat) (x : Json) (xs : JsonList) :
    ppItems d (.cons x xs) =
      indentChars (d+1) ++ ppVal (d+1) x ++
        (match xs with
         | .nil => []
         | .cons _ _ => [',', '\n']) ++ ppItems d xs := rfl

theorem ppMembers_eq (d : Nat) (k : String) (v : Json) (ms : JsonMembers) :
    ppMembers d (.cons k v ms) =
      indentChars (d+1) ++ ppKey k ++ ppVal (d+1) v ++
        (match ms with
         | .nil => []
         | .cons _ _ _ => [',', '\n']) ++ ppMembers d ms := rfl

theorem ppItems_decomp : ∀ (d : Nat) (x : Json) (xs : JsonList) (rest : List Char),
    ppItems d (.cons x xs) ++ ('\n' :: (indentChars d ++ (']' :: rest))) =
      indentChars (d+1) ++ (ppVal (d+1) x ++ itemsSuffix d xs rest)
  | d, x, .nil, rest => by
    rw [ppItems_eq]
    unfold itemsSuffix
    simp [ppItems]
  | d, x, .cons y ys, rest => by
    have ih := ppItems_decomp d y ys rest
    rw [ppItems_eq]
    unfold itemsSuffix
    rw [← ih]
    simp

theorem ppMembers_decomp : ∀ (d : Nat) (k : String) (v : Json) (ms : JsonMembers)
    (rest : List Char),
    ppMembers d (.cons k v ms) ++ ('\n' :: (indentChars d ++ ('\x7d' :: rest))) =
      indentChars (d+1) ++ (ppKey k ++ (ppVal (d+1) v ++ membersSuffix d ms rest))
  | d, k, v, .nil, rest => by
    rw [ppMembers_eq]
    unfold membersSuffix
    simp [ppMembers]
  | d, k, v, .cons k2 v2 ms2, rest => by
    have ih := ppMembers_decomp d k2 v2 ms2 rest
    rw [ppMembers_eq]
    unfold membersSuffix
    rw [← ih]
    simp

theorem ppVal_arr_cons (d : Nat) (x : Json) (xs : JsonList) :
    ppVal d (.arr (.cons x xs)) =
      ['[', '\n'] ++ ppItems d (.cons x xs) ++ '\n' :: (indentChars d ++ [']']) := rfl

theorem ppVal_obj_cons (d : Nat) (k : String) (v : Json) (ms : JsonMembers) :
    ppVal d (.obj (.cons k v ms)) =
      ['\x7b', '\n'] ++ ppMembers d (.cons k v ms) ++ '\n' :: (indentChars d ++ ['\x7d']) := rfl

mutual
theorem cost_le_pp : ∀ (v : Json) (d : Nat), cost v ≤ (ppVal d v).length + 1
  | .null, d => by simp [cost, ppVal]
  | .bool b, d => by cases b <;> simp [cost, ppVal]
  | .num n, d => by simp [cost]
  | .str s, d => by simp [cost]
  | .arr .nil, d => by simp [cost, costItems, ppVal]
  | .arr (.cons x xs), d => by
    have h := costItems_le_pp (.cons x xs) d
    rw [ppVal_arr_cons]
    simp only [cost, List.length_append, List.length_cons, indent_length] at *
    omega
  | .obj .nil, d => by simp [cost, costMems, ppVal]
  | .obj (.cons k v ms), d => by
    have h := costMems_le_pp (.cons k v ms) d
    rw [ppVal_obj_cons]
    simp only [cost, List.length_append, List.length_cons, indent_length] at *
    omega
theorem costItems_le_pp : ∀ (xs : JsonList) (d : Nat), costItems xs ≤ (ppItems d xs).length + 1
  | .nil, d => by simp [costItems, ppItems]
  | .cons x xs, d => by
    have h1 := cost_le_pp x (d+1)
    have h2 := costItems_le_pp xs d
    rw [ppItems_eq]
    cases xs with
    | nil =>
      simp only [costItems, List.length_append, List.length_cons, List.length_nil,
        indent_length] at *
      omega
    | cons y ys =>
      simp only [costItems, List.length_append, List.length_cons, List.length_nil,
        indent_length] at *
      omega
theorem costMems_le_pp : ∀ (ms : JsonMembers) (d : Nat), costMems ms ≤ (ppMembers d ms).length + 1
  | .nil, d => by simp [costMems, ppMembers]
  | .cons k v ms, d => by
    have h1 := cost_le_pp v (d+1)
    have h2 := costMems_le_pp ms d
    rw [ppMembers_eq]
    cases ms with
    | nil =>
      simp only [costMems, List.length_append, List.length_cons, List.length_nil,
        indent_length] at *
      omega
    | cons k2 v2 ms2 =>
      simp only [costMems, List.length_append, List.length_cons, List.length_nil,
        indent_length] at *
      omega
end

theorem parseVal_null (g : Nat) (s rest : List Char)
    (hs : skipWs s = 'n' :: 'u' :: 'l' :: 'l' :: rest) :
    parseVal (g+1) s = some (.null, rest) := by
  rw [parseVal.eq_2, hs]
  rfl

theorem parseVal_true (g : Nat) (s rest : List Char)
    (hs : skipWs s = 't' :: 'r' :: 'u' :: 'e' :: rest) :
    parseVal (g+1) s = some (.bool true, rest) := by
  rw [parseVal.eq_2, hs]
  rfl

theorem parseVal_false (g : Nat) (s rest : List Char)
    (hs : skipWs s = 'f' :: 'a' :: 'l' :: 's' :: 'e' :: rest) :
    parseVal (g+1) s = some (.bool false, rest) := by
  rw [parseVal.eq_2, hs]
  rfl

theorem parseVal_digit (g : Nat) (s r : List Char) (c : Char) (hc : c.isDigit = true)
    (hs : skipWs s = c :: r) :
    parseVal (g+1) s =
      some (.num (Int.ofNat (digitsVal (takeDigits (c :: r)).1)), (takeDigits (c :: r)).2) := by
  rw [parseVal.eq_2, hs]
  simp [hc]

theorem parseVal_minus (g : Nat) (s r : List Char) (hs : skipWs s = '-' :: r) :
    parseVal (g+1) s =
      match takeDigits r with
      | ([], _) => none
      | (ds, r2) => some (.num (-(Int.ofNat (digitsVal ds))), r2) := by
  rw [parseVal.eq_2, hs]
  rfl

theorem parseVal_quote (g : Nat) (s tail : List Char) (hs : skipWs s = '"' :: tail) :
    parseVal (g+1) s =
      match parseStrBody tail with
      | none => none
      | some (cs, r2) => some (.str (String.mk cs), r2) := by
  rw [parseVal.eq_2, hs]
  rfl

theorem parseVal_lbracket (g : Nat) (s r : List Char) (hs : skipWs s = '[' :: r) :
    parseVal (g+1) s =
      if (skipWs r).head? = some ']' then some (.arr .nil, (skipWs r).tail)
      else
        match parseItems g (skipWs r) with
        | none => none
        | some (xs, r2) => some (.arr xs, r2) := by
  rw [parseVal.eq_2, hs]
  rfl

theorem parseVal_lbrace (g : Nat) (s r : List Char) (hs : skipWs s = '{' :: r) :
    parseVal (g+1) s =
      if (skipWs r).head? = some '}' then some (.obj .nil, (skipWs r).tail)
      else
        match parseMembers g (skipWs r) with
        | none => none
        | some (ms, r2) => some (.obj ms, r2) := by
  rw [parseVal.eq_2, hs]
  rfl

theorem parseMembers_quote (g : Nat) (s tail : List Char) (hs : skipWs s = '"' :: tail) :
    parseMembers (g+1) s =
      match parseStrBody tail with
      | none => none
      | some (k, r2) =>
        match skipWs r2 with
        | ':' :: r3 =>
          match parseVal g r3 with
          | none => none
          | some (v, r4) =>
            match skipWs r4 with
            | ',' :: r5 =>
              match parseMembers g r5 with
              | none => none
              | some (ms, r6) => some (.cons (String.mk k) v ms, r6)
            | '}' :: r5 => some (.cons (String.mk k) v .nil, r5)
            | _ => none
        | _ => none := by
  rw [parseMembers.eq_2, hs]
  rfl

theorem skipWs_ppKey (k : String) (t : List Char) :
    skipWs (ppKey k ++ t) = ppKey k ++ t := by
  unfold ppKey
  rw [List.cons_append]
  exact skipWs_cons_not_ws _ _ (by decide)

theorem ppArr_cons_append (d : Nat) (x : Json) (xs : JsonList) (rest : List Char) :
    ppVal d (.arr (.cons x xs)) ++ rest =
      '[' :: '\n' :: (indentChars (d+1) ++ (ppVal (d+1) x ++ itemsSuffix d xs rest)) := by
  rw [ppVal_arr_cons]
  have h := ppItems_decomp d x xs rest
  simp only [List.append_assoc, List.cons_append, List.nil_append] at *
  rw [← h]

theorem ppObj_cons_append (d : Nat) (k : String) (v : Json) (ms : JsonMembers)
    (rest : List Char) :
    ppVal d (.obj (.cons k v ms)) ++ rest =
      '{' :: '\n' :: (indentChars (d+1) ++ (ppKey k ++ (ppVal (d+1) v ++ membersSuffix d ms rest))) := by
  rw [ppVal_obj_cons]
  have h := ppMembers_decomp d k v ms rest
  simp only [List.append_assoc, List.cons_append, List.nil_append] at *
  rw [← h]

theorem parse_pp_round (f : Nat) :
    (∀ (v : Json) (d : Nat) (rest s : List Char), cost v ≤ f → headOk rest →
      skipWs s = ppVal d v ++ rest → parseVal f s = some (v, rest)) ∧
    (∀ (x : Json) (xs : JsonList) (d : Nat) (rest s : List Char),
      costItems (.cons x xs) ≤ f →
      skipWs s = ppVal (d+1) x ++ itemsSuffix d xs rest →
      parseItems f s = some (.cons x xs, rest)) ∧
    (∀ (k : String) (v : Json) (ms : JsonMembers) (d : Nat) (rest s : List Char),
      costMems (.cons k v ms) ≤ f →
      skipWs s = ppKey k ++ (ppVal (d+1) v ++ membersSuffix d ms rest) →
      parseMembers f s = some (.cons k v ms, rest)) := by
  induction f with
  | zero =>
    refine ⟨?_, ?_, ?_⟩
    · intro v d rest s hc _ _
      have := cost_pos v
      omega
    · intro x xs d rest s hc _
      have := costItems_pos (.cons x xs)
      omega
    · intro k v ms d rest s hc _
      have := costMems_pos (.cons k v ms)
      omega
  | succ g ih =>
    obtain ⟨P, Q, R⟩ := ih
    refine ⟨?_, ?_, ?_⟩
    · intro v d rest s hc hok hs
      cases v with
      | null =>
        refine parseVal_null g s rest ?_
        rw [hs]
        simp [ppVal]
      | bool b =>
        cases b with
        | true =>
          refine parseVal_true g s rest ?_
          rw [hs]
          simp [ppVal]
        | false =>
          refine parseVal_false g s rest ?_
          rw [hs]
          simp [ppVal]
      | num n =>
        rw [show ppVal d (.num n) = intChars n from rfl] at hs
        by_cases hneg : n < 0
        · rw [intChars, if_pos hneg, List.cons_append] at hs
          rw [parseVal_minus g s _ hs]
          rw [takeDigits_spec (natChars n.natAbs) rest (natChars_all_digit _) hok]
          obtain ⟨c, t, hct, hcd⟩ := natChars_head n.natAbs
          rw [hct]
          show some (Json.num (-(Int.ofNat (digitsVal (c :: t)))), rest) = some (Json.num n, rest)
          rw [← hct, digitsVal_natChars]
          have hval : -(Int.ofNat n.natAbs) = n := by
            simp only [Int.ofNat_eq_coe]
            omega
          rw [hval]
        · rw [intChars, if_neg hneg] at hs
          obtain ⟨c, t, hct, hcd⟩ := natChars_head n.natAbs
          rw [hct, List.cons_append] at hs
          rw [parseVal_digit g s _ c hcd hs]
          have hback : c :: (t ++ rest) = natChars n.natAbs ++ rest := by
            rw [hct, List.cons_append]
          rw [hback, takeDigits_spec _ _ (natChars_all_digit _) hok]
          show some (Json.num (Int.ofNat (digitsVal (natChars n.natAbs))), rest) = some (Json.num n, rest)
          rw [digitsVal_natChars]
          have hval : Int.ofNat n.natAbs = n := by
            simp only [Int.ofNat_eq_coe]
            omega
          rw [hval]
      | str s' =>
        have hs' : skipWs s = '"' :: (escapeChars s'.data ++ '"' :: rest) := by
          rw [hs]
          simp [ppVal]
        rw [parseVal_quote g s _ hs', parseStr_round]
      | arr xs =>
        cases xs with
        | nil =>
          have hs' : skipWs s = '[' :: (']' :: rest) := by
            rw [hs]
            simp [ppVal]
          rw [parseVal_lbracket g s _ hs']
          rw [skipWs_cons_not_ws ']' rest (by decide)]
          simp
        | cons x xs =>
          rw [ppArr_cons_append] at hs
          rw [parseVal_lbracket g s _ hs]
          have hsk : skipWs ('\n' :: (indentChars (d+1) ++ (ppVal (d+1) x ++ itemsSuffix d xs rest))) =
              ppVal (d+1) x ++ itemsSuffix d xs rest := by
            rw [skipWs_nl, skipWs_indent, skipWs_pp]
          rw [hsk]
          obtain ⟨c0, t0, hct0, hws0, hne0, _⟩ := ppVal_head (d+1) x
          have hcost : costItems (.cons x xs) ≤ g := by
            simp only [cost] at hc
            omega
          have hq := Q x xs d rest (ppVal (d+1) x ++ itemsSuffix d xs rest) hcost
            (by rw [hct0, List.cons_append, skipWs_cons_not_ws _ _ hws0, ← List.cons_append, ← hct0])
          rw [hq]
          rw [hct0, List.cons_append]
          simp [hne0]
      | obj ms =>
        cases ms with
        | nil =>
          have hs' : skipWs s = '{' :: ('}' :: rest) := by
            rw [hs]
            simp [ppVal]
          rw [parseVal_lbrace g s _ hs']
          rw [skipWs_cons_not_ws '}' rest (by decide)]
          simp
        | cons k v ms =>
          rw [ppObj_cons_append] at hs
          rw [parseVal_lbrace g s _ hs]
          have hsk : skipWs ('\n' :: (indentChars (d+1) ++ (ppKey k ++ (ppVal (d+1) v ++ membersSuffix d ms rest)))) =
              ppKey k ++ (ppVal (d+1) v ++ membersSuffix d ms rest) := by
            rw [skipWs_nl, skipWs_indent, skipWs_ppKey]
          rw [hsk]
          have hcost : costMems (.cons k v ms) ≤ g := by
            simp only [cost] at hc
            omega
          have hr := R k v ms d rest (ppKey k ++ (ppVal (d+1) v ++ membersSuffix d ms rest)) hcost
            (skipWs_ppKey k _)
          rw [hr]
          rw [show ppKey k ++ (ppVal (d+1) v ++ membersSuffix d ms rest) =
            '"' :: (escapeChars k.data ++ ('"' :: (':' :: (' ' :: (ppVal (d+1) v ++ membersSuffix d ms rest))))) by simp [ppKey]]
          simp
    · intro x xs d rest s hc hs
      rw [parseItems.eq_2]
      have hcx : cost x ≤ g := by
        rw [show costItems (.cons x xs) = 1 + max (cost x) (costItems xs) from rfl] at hc
        have hml := Nat.le_max_left (cost x) (costItems xs)
        omega
      have hhead : headOk (itemsSuffix d xs rest) := by
        cases xs with
        | nil => exact (by decide : ('\n').isDigit = false)
        | cons y ys => exact (by decide : (',').isDigit = false)
      have hv := P x (d+1) (itemsSuffix d xs rest) s hcx hhead hs
      rw [hv]
      cases xs with
      | nil =>
        have hsk : skipWs (itemsSuffix d .nil rest) = ']' :: rest := by
          unfold itemsSuffix
          rw [skipWs_nl, skipWs_indent, skipWs_cons_not_ws _ _ (by decide)]
        show (match skipWs (itemsSuffix d .nil rest) with
          | ',' :: r2 =>
            match parseItems g r2 with
            | none => none
            | some (vs, r3) => some (JsonList.cons x vs, r3)
          | ']' :: r2 => some (JsonList.cons x JsonList.nil, r2)
          | _ => none) = some (.cons x .nil, rest)
        rw [hsk]
        rfl
      | cons y ys =>
        have hsk : skipWs (itemsSuffix d (.cons y ys) rest) =
            ',' :: ('\n' :: (indentChars (d+1) ++ (ppVal (d+1) y ++ itemsSuffix d ys rest))) := by
          exact skipWs_cons_not_ws ','
            ('\n' :: (indentChars (d+1) ++ (ppVal (d+1) y ++ itemsSuffix d ys rest))) (by decide)
        show (match skipWs (itemsSuffix d (.cons y ys) rest) with
          | ',' :: r2 =>
            match parseItems g r2 with
            | none => none
            | some (vs, r3) => some (JsonList.cons x vs, r3)
          | ']' :: r2 => some (JsonList.cons x JsonList.nil, r2)
          | _ => none) = some (.cons x (.cons y ys), rest)
        rw [hsk]
        have hcys : costItems (.cons y ys) ≤ g := by
          rw [show costItems (.cons x (.cons y ys)) =
            1 + max (cost x) (costItems (.cons y ys)) from rfl] at hc
          have hmr := Nat.le_max_right (cost x) (costItems (.cons y ys))
          omega
        have hq := Q y ys d rest ('\n' :: (indentChars (d+1) ++ (ppVal (d+1) y ++ itemsSuffix d ys rest)))
          hcys (by rw [skipWs_nl, skipWs_indent, skipWs_pp])
        show (match parseItems g ('\n' :: (indentChars (d+1) ++ (ppVal (d+1) y ++ itemsSuffix d ys rest))) with
          | none => none
          | some (vs, r3) => some (JsonList.cons x vs, r3)) = some (.cons x (.cons y ys), rest)
        rw [hq]
    · intro k v ms d rest s hc hs
      have hs' : skipWs s =
          '"' :: (escapeChars k.data ++ ('"' :: (':' :: (' ' :: (ppVal (d+1) v ++ membersSuffix d ms rest))))) := by
        rw [hs]
        simp [ppKey]
      rw [parseMembers_quote g s _ hs']
      rw [show escapeChars k.data ++ ('"' :: (':' :: (' ' :: (ppVal (d+1) v ++ membersSuffix d ms rest)))) =
        escapeChars k.data ++ '"' :: (':' :: (' ' :: (ppVal (d+1) v ++ membersSuffix d ms rest))) from rfl]
      rw [parseStr_round]
      have hcv : cost v ≤ g := by
        rw [show costMems (.cons k v ms) = 1 + max (cost v) (costMems ms) from rfl] at hc
        have hml := Nat.le_max_left (cost v) (costMems ms)
        omega
      have hhead : headOk (membersSuffix d ms rest) := by
        cases ms with
        | nil => exact (by decide : ('\n').isDigit = false)
        | cons k2 v2 ms2 => exact (by decide : (',').isDigit = false)
      have hp := P v (d+1) (membersSuffix d ms rest) (' ' :: (ppVal (d+1) v ++ membersSuffix d ms rest))
        hcv hhead (by rw [skipWs_cons_ws _ _ (by decide), skipWs_pp])
      show (match skipWs (':' :: (' ' :: (ppVal (d+1) v ++ membersSuffix d ms rest))) with
        | ':' :: r3 =>
          match parseVal g r3 with
          | none => none
          | some (v2, r4) =>
            match skipWs r4 with
            | ',' :: r5 =>
              match parseMembers g r5 with
              | none => none
              | some (ms2, r6) => some (JsonMembers.cons (String.mk k.data) v2 ms2, r6)
            | '}' :: r5 => some (JsonMembers.cons (String.mk k.data) v2 JsonMembers.nil, r5)
            | _ => none
        | _ => none) = some (.cons k v ms, rest)
      rw [skipWs_cons_not_ws ':' (' ' :: (ppVal (d+1) v ++ membersSuffix d ms rest)) (by decide)]
      show (match parseVal g (' ' :: (ppVal (d+1) v ++ membersSuffix d ms rest)) with
        | none => none
        | some (v2, r4) =>
          match skipWs r4 with
          | ',' :: r5 =>
            match parseMembers g r5 with
            | none => none
            | some (ms2, r6) => some (JsonMembers.cons (String.mk k.data) v2 ms2, r6)
          | '\x7d' :: r5 => some (JsonMembers.cons (String.mk k.data) v2 JsonMembers.nil, r5)
          | _ => none) = some (.cons k v ms, rest)
      rw [hp]
      cases ms with
      | nil =>
        have hsk : skipWs (membersSuffix d .nil rest) = '}' :: rest := by
          unfold membersSuffix
          rw [skipWs_nl, skipWs_indent, skipWs_cons_not_ws _ _ (by decide)]
        show (match skipWs (membersSuffix d .nil rest) with
          | ',' :: r5 =>
            match parseMembers g r5 with
            | none => none
            | some (ms2, r6) => some (JsonMembers.cons (String.mk k.data) v ms2, r6)
          | '}' :: r5 => some (JsonMembers.cons (String.mk k.data) v JsonMembers.nil, r5)
          | _ => none) = some (.cons k v .nil, rest)
        rw [hsk]
        rfl
      | cons k2 v2 ms2 =>
        have hsk : skipWs (membersSuffix d (.cons k2 v2 ms2) rest) =
            ',' :: ('\n' :: (indentChars (d+1) ++ (ppKey k2 ++ (ppVal (d+1) v2 ++ membersSuffix d ms2 rest)))) := by
          exact skipWs_cons_not_ws ','
            ('\n' :: (indentChars (d+1) ++ (ppKey k2 ++ (ppVal (d+1) v2 ++ membersSuffix d ms2 rest)))) (by decide)
        show (match skipWs (membersSuffix d (.cons k2 v2 ms2) rest) with
          | ',' :: r5 =>
            match parseMembers g r5 with
            | none => none
            | some (ms2, r6) => some (JsonMembers.cons (String.mk k.data) v ms2, r6)
          | '}' :: r5 => some (JsonMembers.cons (String.mk k.data) v JsonMembers.nil, r5)
          | _ => none) = some (.cons k v (.cons k2 v2 ms2), rest)
        rw [hsk]
        have hcms : costMems (.cons k2 v2 ms2) ≤ g := by
          rw [show costMems (.cons k v (.cons k2 v2 ms2)) =
            1 + max (cost v) (costMems (.cons k2 v2 ms2)) from rfl] at hc
          have hmr := Nat.le_max_right (cost v) (costMems (.cons k2 v2 ms2))
          omega
        have hr := R k2 v2 ms2 d rest
          ('\n' :: (indentChars (d+1) ++ (ppKey k2 ++ (ppVal (d+1) v2 ++ membersSuffix d ms2 rest))))
          hcms (by rw [skipWs_nl, skipWs_indent, skipWs_ppKey])
        show (match parseMembers g
            ('\n' :: (indentChars (d+1) ++ (ppKey k2 ++ (ppVal (d+1) v2 ++ membersSuffix d ms2 rest)))) with
          | none => none
          | some (ms3, r6) => some (JsonMembers.cons (String.mk k.data) v ms3, r6)) =
          some (.cons k v (.cons k2 v2 ms2), rest)
        rw [hr]

theorem jsonParse_ppString (v : Json) : jsonParse (ppString v) = some v := by
  have hcost := cost_le_pp v 0
  have hskip : skipWs (ppVal 0 v) = ppVal 0 v ++ [] := by
    rw [List.append_nil]
    have h := skipWs_pp 0 v []
    rw [List.append_nil] at h
    exact h
  have hP := (parse_pp_round ((ppVal 0 v).length + 1)).1 v 0 [] (ppVal 0 v)
    (by omega) trivial hskip
  unfold jsonParse ppString
  show (match parseVal ((ppVal 0 v).length + 1) (ppVal 0 v) with
    | some (v, rest) => if skipWs rest = [] then some v else none
    | none => none) = some v
  rw [hP]
  rfl

theorem metaLookup_append_last (l : List (String × MetaVal)) (k : String) (v : MetaVal) :
    metaLookup (l ++ [(k, v)]) k = some v := by
  induction l with
  | nil => simp [metaLookup]
  | cons p rest ih =>
    rcases p with ⟨k1, v1⟩
    show (match metaLookup (rest ++ [(k, v)]) k with
      | some r => some r
      | none => if k1 = k then some v1 else none) = some v
    rw [ih]

/-- C8: for every successfully-read JSON input: the strategy never throws
after the read; on a syntactically valid input the output text is the
2-space-indented re-serialization of the parsed value, `isValidJson`
metadata is 1, and re-parsing the output yields exactly the parse of the
original input; on an invalid input the raw content passes through
unmodified with a validity warning and `isValidJson` 0. -/
theorem claim_C8 (f : FileModel) (r : ExtractionResult) (content : String)
    (ht : f.textContent = .ok content) :
    (extractJSON f r).2 = none ∧
    (∀ v, jsonParse content = some v →
      (extractJSON f r).1.text = ppString v ∧
      getMeta (extractJSON f r).1 "isValidJson" = some (.j (.num 1)) ∧
      jsonParse (extractJSON f r).1.text = jsonParse content) ∧
    (jsonParse content = none →
      (extractJSON f r).1.text = content ∧
      (extractJSON f r).1.warnings = r.warnings ++ ["File does not contain valid JSON"] ∧
      getMeta (extractJSON f r).1 "isValidJson" = some (.j (.num 0))) := by
  unfold extractJSON
  simp only [ht]
  rcases hjp : jsonParse content with _ | v
  · refine ⟨rfl, ?_, ?_⟩
    · intro v hv
      exact Option.noConfusion hv
    · intro _
      refine ⟨rfl, ?_, ?_⟩
      · show (pushWarning {r with text := content} "File does not contain valid JSON").warnings =
          r.warnings ++ ["File does not contain valid JSON"]
        rfl
      · unfold getMeta putMeta
        exact metaLookup_append_last _ _ _
  · refine ⟨rfl, ?_, ?_⟩
    · intro v2 hv2
      cases hv2
      refine ⟨rfl, ?_, ?_⟩
      · unfold getMeta putMeta
        exact metaLookup_append_last _ _ _
      · show jsonParse (ppString v) = some v
        exact jsonParse_ppString v
    · intro hnone
      exact Option.noConfusion hnone

theorem claim_C8_witness :
    (extractJSON jsonFile (initResult jsonFile)).2 = none ∧
    (extractJSON jsonFile (initResult jsonFile)).1.text =
      "\x7b\n  \"a\": 1,\n  \"b\": [\n    2,\n    3\n  ]\n\x7d" ∧
    getMeta (extractJSON jsonFile (initResult jsonFile)).1 "isValidJson" =
      some (.j (.num 1)) ∧
    jsonParse (extractJSON jsonFile (initResult jsonFile)).1.text =
      jsonParse "\x7b\"a\":1,\"b\":[2,3]\x7d" := by
  obtain ⟨h1, h2, _⟩ := claim_C8 jsonFile (initResult jsonFile)
    "\x7b\"a\":1,\"b\":[2,3]\x7d" rfl
  obtain ⟨ha, hb, hc⟩ := h2
    (.obj (.cons "a" (.num 1) (.cons "b" (.arr (.cons (.num 2) (.cons (.num 3) .nil))) .nil)))
    rfl
  exact ⟨h1, by rw [ha]; rfl, hb, hc⟩

/-- Witness for C1 at a concrete input: the successful `data.csv`
extraction satisfies the first implication with its hypotheses discharged
concretely. -/
theorem claim_C1_witness :
    ∃ r, extractText envNull csvFile = .ok r ∧ r.status = .success := by
  refine ⟨_, rfl, ?_⟩
  exact (claim_C1 envNull csvFile _ rfl).1 rfl rfl (by decide)

/-- Witness for C10 at a concrete input: `data.bin` classifies as unknown
and its extraction is not a success. -/
theorem claim_C10_witness :
    ∃ r, extractText envNull binFile = .ok r ∧ r.status ≠ .success := by
  refine ⟨_, rfl, ?_⟩
  exact claim_C10 envNull binFile rfl _ rfl

/-- Witness for C6 at the spec's scenario: a two-page PDF whose second page
throws yields both pages in order, the sentinel on page 2 only, the single
page-2 warning, and the ordered page markers in the text. -/
theorem claim_C6_witness :
    ∃ r, extractText envPdf reportPdfFile = .ok r ∧
      r.pages = some [⟨1, "Hello world"⟩, ⟨2, "[UNREADABLE: Page extraction failed]"⟩] ∧
      r.text =
        "--- Page 1 ---\nHello world\n\n--- Page 2 ---\n[UNREADABLE: Page extraction failed]" ∧
      r.warnings = ["Page 2: Extraction error - possible corruption"] := by
  obtain ⟨r, hok, hpages, _, htext, _, hwarn, _, _⟩ :=
    claim_C6 envPdf reportPdfFile [37, 80, 68, 70] pdfTwoPages rfl rfl rfl
  refine ⟨r, hok, ?_, ?_, ?_⟩
  · rw [hpages]
    rfl
  · rw [htext]
    rfl
  · rw [hwarn]
    rfl

/-- Witness for C7 at a concrete input: the opened two-page document is
destroyed. -/
theorem claim_C7_witness :
    (extractPDFAux envPdf reportPdfFile (initResult reportPdfFile)).2 = true :=
  claim_C7 envPdf reportPdfFile (initResult reportPdfFile) [37, 80, 68, 70] pdfTwoPages rfl rfl

/-- Witness for C9 at the spec's scenario: `archive.zip` containing
`notes.txt` = "hello" yields the recovered entry under its marker and the
count warning. -/
theorem claim_C9_witness :
    (extractUnknown envZip archiveZipFile (initResult archiveZipFile)).text =
      "=== notes.txt ===\nhello" ∧
    "Extracted 1 text file(s) from archive" ∈
      (extractUnknown envZip archiveZipFile (initResult archiveZipFile)).warnings := by
  obtain ⟨h1, _⟩ := claim_C9 envZip archiveZipFile (initResult archiveZipFile)
    "PKzipdata" [80, 75, 3, 4] rfl rfl rfl rfl
  obtain ⟨ha, hb⟩ := h1 [{ path := "notes.txt", dir := false, content := .ok "hello" }]
    rfl (by decide)
  constructor
  · rw [ha]
    rfl
  · have heq : "Extracted 1 text file(s) from archive" =
        "Extracted " ++
          natToString (zipRecovered
            [({ path := "notes.txt", dir := false, content := .ok "hello" } : ZipEntry)]).length ++
          " text file(s) from archive" := rfl
    rw [heq]
    exact hb
